import Mathlib

/-!
Verification of the event-taxonomy and metadata layer of `juju/charm.py`
(charmbase).  The Python classes `CharmMetadata`, `RelationDefinition`,
`StorageDefinition`, `ResourceDefinition`, `PayloadDefinition`, `CharmEvents`
and `CharmBase` are embedded as Lean definitions below; raw YAML-decoded
mappings are modelled as structures of optional fields, Python dictionaries as
insertion-ordered association lists, and Python exceptions as `Except` errors.
-/

namespace Charm

/-! ### Python dictionaries

An insertion-ordered association list with insert-or-replace assignment, the
observable behaviour of a Python `dict`. -/

abbrev Dict (α : Type) : Type := List (String × α)

def dictKeys {α : Type} (d : Dict α) : List String :=
  d.map Prod.fst

/-- First-occurrence lookup, i.e. `d[k]`/`d.get(k)` on a `dict` (whose keys
are unique, so the first occurrence is the only one). -/
def dictGet? {α : Type} (d : Dict α) (k : String) : Option α :=
  match d with
  | [] => none
  | (k₁, v₁) :: rest => if k₁ = k then some v₁ else dictGet? rest k

/-- `d[k] = v`: replace in place when the key is present, append otherwise. -/
def dictInsert {α : Type} (d : Dict α) (k : String) (v : α) : Dict α :=
  match d with
  | [] => [(k, v)]
  | (k₁, v₁) :: rest => if k₁ = k then (k, v) :: rest else (k₁, v₁) :: dictInsert rest k v

/-- `d₁.update(d₂)`: assign every pair of `d₂` into `d₁`, left to right. -/
def dictUpdate {α : Type} (d₁ d₂ : Dict α) : Dict α :=
  match d₂ with
  | [] => d₁
  | (k, v) :: rest => dictUpdate (dictInsert d₁ k v) rest

def NoDupKeys {α : Type} (d : Dict α) : Prop :=
  (dictKeys d).Nodup

instance {α : Type} (d : Dict α) : Decidable (NoDupKeys d) := by
  unfold NoDupKeys; infer_instance

/-! ### Python string operations -/

/-- `s.split(c)` on the character list of a string: splitting on a
single-character separator, `[[]]` on the empty list. -/
def splitChar (c : Char) : List Char → List (List Char)
  | [] => [[]]
  | a :: rest =>
    if a = c then [] :: splitChar c rest
    else
      match splitChar c rest with
      | [] => [[a]]
      | h :: t => (a :: h) :: t

/-- Python `s.split(sep)` for a single-character separator `sep`. -/
def pySplit (s : String) (c : Char) : List String :=
  (splitChar c s.data).map (fun l => { data := l })

/-- Contiguous-subsequence test on character lists. -/
def seqIn (pat : List Char) : List Char → Bool
  | [] => pat.isEmpty
  | a :: rest => pat.isPrefixOf (a :: rest) || seqIn pat rest

/-- Python `sub in s` substring containment. -/
def pyIn (sub s : String) : Bool :=
  seqIn sub.data s.data

def stripWS (l : List Char) : List Char :=
  ((l.dropWhile Char.isWhitespace).reverse.dropWhile Char.isWhitespace).reverse

def digitsVal (l : List Char) : Nat :=
  l.foldl (fun acc c => acc * 10 + (c.toNat - 48)) 0

/-- Continuation of a grouped decimal numeral: digits, with a single
underscore allowed only between digits. -/
def groupedTail : List Char → Bool
  | [] => true
  | ['_'] => false
  | '_' :: b :: rest => b.isDigit && groupedTail rest
  | a :: rest => a.isDigit && groupedTail rest

/-- A decimal numeral as accepted by Python's `int()`: nonempty, starting
with a digit, with single underscores permitted only between digits
(PEP 515 grouping). -/
def groupedDigits : List Char → Bool
  | [] => false
  | c :: rest => c.isDigit && groupedTail rest

/-- Model of Python `int(s)` on a decimal string: surrounding whitespace is
stripped, an optional single sign is allowed before a nonempty digit run
that may use single underscores as grouping separators; anything else
raises `ValueError`, modelled as `none`. -/
def pyInt? (s : String) : Option Int :=
  match stripWS s.data with
  | [] => none
  | c :: rest =>
    if c = '-' then
      if groupedDigits rest then
        some (-(digitsVal (rest.filter (fun d => d != '_')) : Int))
      else none
    else if c = '+' then
      if groupedDigits rest then
        some ((digitsVal (rest.filter (fun d => d != '_')) : Int))
      else none
    else if groupedDigits (c :: rest) then
      some ((digitsVal ((c :: rest).filter (fun d => d != '_')) : Int))
    else none

/-! ### Raw metadata

The raw, YAML-decoded description passed to `CharmMetadata.__init__`.  Each
optional top-level key is an `Option` field; nested definition mappings are
`Dict`s of raw definition records. -/

structure RawRelation where
  interface : Option String
  scope : Option String
  deriving DecidableEq, Repr

structure RawMultiple where
  range : Option String
  deriving DecidableEq, Repr

structure RawStorage where
  type : Option String
  description : Option String
  shared : Option Bool
  read_only : Option Bool
  minimum_size : Option String
  location : Option String
  multiple : Option RawMultiple
  deriving DecidableEq, Repr

structure RawResource where
  type : Option String
  filename : Option String
  description : Option String
  deriving DecidableEq, Repr

structure RawPayload where
  type : Option String
  deriving DecidableEq, Repr

structure RawMetadata where
  name : Option String
  summary : Option String
  description : Option String
  maintainer : Option String
  maintainers : Option (List String)
  tags : Option (List String)
  terms : Option (List String)
  series : Option (List String)
  subordinate : Option Bool
  min_juju_version : Option String
  requires : Dict RawRelation
  provides : Dict RawRelation
  peers : Dict RawRelation
  storage : Dict RawStorage
  resources : Dict RawResource
  payloads : Dict RawPayload
  extra_bindings : Option (List String)
  deriving DecidableEq, Repr

/-- The empty raw description `{}`. -/
def RawMetadata.empty : RawMetadata :=
  { name := none, summary := none, description := none,
    maintainer := none, maintainers := none,
    tags := none, terms := none, series := none,
    subordinate := none, min_juju_version := none,
    requires := [], provides := [], peers := [],
    storage := [], resources := [], payloads := [],
    extra_bindings := none }

/-! ### Errors

`RelationDefinition.__init__` and friends raise `KeyError` on an absent
required key and `ValueError` from `int()` on a malformed range bound.  A
`KeyError` carries exactly the missing key, i.e. the field name — not the
name of the definition being constructed — and is modelled as
`MissingField field`; the `ValueError` message carries the offending
literal, modelled as `InvalidFormat token`. -/

instance {e a : Type} [DecidableEq e] [DecidableEq a] : DecidableEq (Except e a) := fun x y =>
  match x, y with
  | .ok v, .ok w => if h : v = w then isTrue (by rw [h]) else isFalse (by simp [h])
  | .error v, .error w => if h : v = w then isTrue (by rw [h]) else isFalse (by simp [h])
  | .ok _, .error _ => isFalse (by simp)
  | .error _, .ok _ => isFalse (by simp)

inductive MetadataError where
  | MissingField (field : String)
  | InvalidFormat (token : String)
  deriving DecidableEq, Repr

/-! ### Typed definitions -/

structure RelationDefinition where
  role : String
  relation_name : String
  interface_name : String
  scope : Option String
  deriving DecidableEq, Repr

structure StorageDefinition where
  storage_name : String
  type : String
  description : String
  shared : Bool
  read_only : Bool
  minimum_size : Option String
  location : Option String
  is_multiple : Bool
  range : Option (Int × Option Int)
  deriving DecidableEq, Repr

structure ResourceDefinition where
  resource_name : String
  type : String
  filename : String
  description : String
  deriving DecidableEq, Repr

structure PayloadDefinition where
  payload_name : String
  type : String
  deriving DecidableEq, Repr

/-- `RelationDefinition.__init__(role, relation_name, raw)`:
`raw['interface']` is required, `raw.get('scope')` optional. -/
def RelationDefinition.init (role relation_name : String) (raw : RawRelation) :
    Except MetadataError RelationDefinition :=
  match raw.interface with
  | none => .error (.MissingField "interface")
  | some i =>
    .ok { role := role, relation_name := relation_name,
          interface_name := i, scope := raw.scope }

/-- `StorageDefinition.__init__(name, raw)`: `raw['type']` is required;
when `'multiple' in raw`, `raw['multiple']['range']` is read and parsed —
a token without `'-'` gives `(int(r), int(r))`, otherwise the token is split
on `'-'` and gives `(int(parts[0]), int(parts[1]) if parts[1] else None)`. -/
def StorageDefinition.init (name : String) (raw : RawStorage) :
    Except MetadataError StorageDefinition :=
  match raw.type with
  | none => .error (.MissingField "type")
  | some ty =>
    let mkDef : Bool → Option (Int × Option Int) → StorageDefinition := fun im rng =>
      { storage_name := name, type := ty,
        description := raw.description.getD "",
        shared := raw.shared.getD false,
        read_only := raw.read_only.getD false,
        minimum_size := raw.minimum_size,
        location := raw.location,
        is_multiple := im, range := rng }
    match raw.multiple with
    | none => .ok (mkDef false none)
    | some mult =>
      match mult.range with
      | none => .error (.MissingField "range")
      | some r =>
        if pyIn "-" r then
          match pySplit r '-' with
          | r₀ :: r₁ :: _ =>
            match pyInt? r₀ with
            | none => .error (.InvalidFormat r)
            | some lo =>
              if r₁ = "" then .ok (mkDef true (some (lo, none)))
              else
                match pyInt? r₁ with
                | none => .error (.InvalidFormat r)
                | some hi => .ok (mkDef true (some (lo, some hi)))
          | _ => .error (.InvalidFormat r)
        else
          match pyInt? r with
          | none => .error (.InvalidFormat r)
          | some n₀ => .ok (mkDef true (some (n₀, some n₀)))

/-- `ResourceDefinition.__init__(name, raw)`: `raw['type']` and
`raw['filename']` are required. -/
def ResourceDefinition.init (name : String) (raw : RawResource) :
    Except MetadataError ResourceDefinition :=
  match raw.type with
  | none => .error (.MissingField "type")
  | some ty =>
    match raw.filename with
    | none => .error (.MissingField "filename")
    | some fn =>
      .ok { resource_name := name, type := ty, filename := fn,
            description := raw.description.getD "" }

/-- `PayloadDefinition.__init__(name, raw)`: `raw['type']` is required. -/
def PayloadDefinition.init (name : String) (raw : RawPayload) :
    Except MetadataError PayloadDefinition :=
  match raw.type with
  | none => .error (.MissingField "type")
  | some ty => .ok { payload_name := name, type := ty }

/-- A dict comprehension `{name: f(name, r) for name, r in raw.items()}` over
a fallible constructor `f`: items are processed in order and the first raised
error propagates. -/
def parseDefs {R D : Type} (f : String → R → Except MetadataError D) :
    Dict R → Except MetadataError (Dict D)
  | [] => .ok []
  | (n, r) :: rest => do
    let d ← f n r
    let ds ← parseDefs f rest
    .ok ((n, d) :: ds)

structure CharmMetadata where
  name : String
  summary : String
  description : String
  maintainers : List String
  tags : List String
  terms : List String
  series : List String
  subordinate : Bool
  min_juju_version : Option String
  requires : Dict RelationDefinition
  provides : Dict RelationDefinition
  peers : Dict RelationDefinition
  relations : Dict RelationDefinition
  storage : Dict StorageDefinition
  resources : Dict ResourceDefinition
  payloads : Dict PayloadDefinition
  extra_bindings : List String
  deriving DecidableEq, Repr

/-- `CharmMetadata.__init__(raw=None)`: `raw = raw or {}`, scalar and sequence
fields take defaults via `raw.get`, `maintainer`/`maintainers` are
concatenated singular first, the three role mappings are parsed with their
role tag and combined into `relations` by `dict.update` in the order
requires, provides, peers. -/
def CharmMetadata.init (raw? : Option RawMetadata) : Except MetadataError CharmMetadata := do
  let raw := raw?.getD RawMetadata.empty
  let requires ← parseDefs (RelationDefinition.init "requires") raw.requires
  let provides ← parseDefs (RelationDefinition.init "provides") raw.provides
  let peers ← parseDefs (RelationDefinition.init "peers") raw.peers
  let relations := dictUpdate (dictUpdate (dictUpdate [] requires) provides) peers
  let storage ← parseDefs StorageDefinition.init raw.storage
  let resources ← parseDefs ResourceDefinition.init raw.resources
  let payloads ← parseDefs PayloadDefinition.init raw.payloads
  .ok { name := raw.name.getD "",
        summary := raw.summary.getD "",
        description := raw.description.getD "",
        maintainers := (match raw.maintainer with
          | some m => [m]
          | none => []) ++ raw.maintainers.getD [],
        tags := raw.tags.getD [],
        terms := raw.terms.getD [],
        series := raw.series.getD [],
        subordinate := raw.subordinate.getD false,
        min_juju_version := raw.min_juju_version,
        requires := requires, provides := provides, peers := peers,
        relations := relations,
        storage := storage, resources := resources, payloads := payloads,
        extra_bindings := raw.extra_bindings.getD [] }

/-- The Metadata Model's entry point, `metadata_from_raw`. -/
def metadata_from_raw (raw? : Option RawMetadata) : Except MetadataError CharmMetadata :=
  CharmMetadata.init raw?

/-! ### Event payload types

The `EventBase` subclasses of `juju/charm.py`, as a closed enumeration. -/

inductive EventType where
  | InstallEvent
  | StartEvent
  | StopEvent
  | ConfigChangedEvent
  | UpdateStatusEvent
  | UpgradeCharmEvent
  | PreSeriesUpgradeEvent
  | PostSeriesUpgradeEvent
  | LeaderElectedEvent
  | LeaderSettingsChangedEvent
  | RelationJoinedEvent
  | RelationChangedEvent
  | RelationDepartedEvent
  | RelationBrokenEvent
  | StorageAttachedEvent
  | StorageDetachingEvent
  deriving DecidableEq, Repr

inductive FrameworkError where
  | DuplicateDeclaration (key : String)
  deriving DecidableEq, Repr

/-- The `ValueError` raised by Python tuple unpacking when `split('_')` does
not yield exactly three parts. -/
inductive AccessError where
  | ValueError
  deriving DecidableEq, Repr

/-! ### CharmEvents -/

/-- The event namespace of a charm: its registry of event declarations, a
mapping from event kind to the payload type the declaration carries
(the observer engine's `all_declarations()` view). -/
structure CharmEvents where
  events : Dict EventType
  deriving DecidableEq, Repr

/-- The ten fixed lifecycle declarations from the `CharmEvents` class body,
in declaration order. -/
def charmEventsInit : CharmEvents :=
  { events :=
      [("install", .InstallEvent),
       ("start", .StartEvent),
       ("stop", .StopEvent),
       ("update_status", .UpdateStatusEvent),
       ("config_changed", .ConfigChangedEvent),
       ("upgrade_charm", .UpgradeCharmEvent),
       ("pre_series_upgrade", .PreSeriesUpgradeEvent),
       ("post_series_upgrade", .PostSeriesUpgradeEvent),
       ("leader_elected", .LeaderElectedEvent),
       ("leader_settings_changed", .LeaderSettingsChangedEvent)] }

/-- Modelled from the spec: the observer engine's declaration-registration
primitive `define(key, payload_type)`, which fails with `DuplicateDeclaration`
if `key` is already registered.  The engine itself (`juju.framework`, imported
by `juju/charm.py`) is not among the sources; only this registration contract
and the `all_declarations()` enumeration are relied on. -/
def CharmEvents.define_event (ce : CharmEvents) (key : String) (ty : EventType) :
    Except FrameworkError CharmEvents :=
  if key ∈ dictKeys ce.events then .error (.DuplicateDeclaration key)
  else .ok { events := ce.events ++ [(key, ty)] }

/-- The loop body of the `relation` property: for each `(event_kind,
bound_event)` in `self.events().items()`, if `'_relation_' in event_kind` then
`relation_name, _, event_name = event_kind.split('_')` (a `ValueError` unless
the split has exactly three parts) and the bound event is set on the group for
`relation_name` under attribute `event_name`.  Groups are a dict of
`SimpleNamespace`s, each modelled as a dict of attributes. -/
def relationLoop (groups : Dict (Dict EventType)) :
    Dict EventType → Except AccessError (Dict (Dict EventType))
  | [] => .ok groups
  | (event_kind, bound_event) :: rest =>
    if pyIn "_relation_" event_kind then
      match pySplit event_kind '_' with
      | [relation_name, _, event_name] =>
        relationLoop
          (dictInsert groups relation_name
            (dictInsert ((dictGet? groups relation_name).getD []) event_name bound_event))
          rest
      | _ => .error .ValueError
    else relationLoop groups rest

/-- The `CharmEvents.relation` property. -/
def CharmEvents.relation (ce : CharmEvents) : Except AccessError (Dict (Dict EventType)) :=
  relationLoop [] ce.events

/-- The loop body of the `storage` property, with infix `'_storage_'`. -/
def storageLoop (groups : Dict (Dict EventType)) :
    Dict EventType → Except AccessError (Dict (Dict EventType))
  | [] => .ok groups
  | (event_kind, bound_event) :: rest =>
    if pyIn "_storage_" event_kind then
      match pySplit event_kind '_' with
      | [storage_name, _, event_name] =>
        storageLoop
          (dictInsert groups storage_name
            (dictInsert ((dictGet? groups storage_name).getD []) event_name bound_event))
          rest
      | _ => .error .ValueError
    else storageLoop groups rest

/-- The `CharmEvents.storage` property. -/
def CharmEvents.storage (ce : CharmEvents) : Except AccessError (Dict (Dict EventType)) :=
  storageLoop [] ce.events

/-! ### CharmBase -/

structure CharmBase where
  «on» : CharmEvents
  metadata : CharmMetadata
  deriving DecidableEq, Repr

/-- The relation loop of `CharmBase.__init__`: the four relation-lifecycle
declarations for one relation name. -/
def defineRelationEvents (ce : CharmEvents) (relation_name : String) :
    Except FrameworkError CharmEvents := do
  let ce ← ce.define_event (relation_name ++ "_relation_joined") .RelationJoinedEvent
  let ce ← ce.define_event (relation_name ++ "_relation_changed") .RelationChangedEvent
  let ce ← ce.define_event (relation_name ++ "_relation_departed") .RelationDepartedEvent
  ce.define_event (relation_name ++ "_relation_broken") .RelationBrokenEvent

/-- The storage loop of `CharmBase.__init__`: the two storage-lifecycle
declarations for one storage name. -/
def defineStorageEvents (ce : CharmEvents) (storage_name : String) :
    Except FrameworkError CharmEvents := do
  let ce ← ce.define_event (storage_name ++ "_storage_attached") .StorageAttachedEvent
  ce.define_event (storage_name ++ "_storage_detaching") .StorageDetachingEvent

def defineRelationEventsAll (ce : CharmEvents) :
    List String → Except FrameworkError CharmEvents
  | [] => .ok ce
  | n :: rest => do
    let ce ← defineRelationEvents ce n
    defineRelationEventsAll ce rest

def defineStorageEventsAll (ce : CharmEvents) :
    List String → Except FrameworkError CharmEvents
  | [] => .ok ce
  | n :: rest => do
    let ce ← defineStorageEvents ce n
    defineStorageEventsAll ce rest

/-- `CharmBase.__init__(framework, key, metadata)`: starting from the fixed
declarations of `CharmEvents`, define the four relation events for each name
in `metadata.relations` (in dict iteration order), then the two storage
events for each name in `metadata.storage`. -/
def CharmBase.init (metadata : CharmMetadata) : Except FrameworkError CharmBase := do
  let ce := charmEventsInit
  let ce ← defineRelationEventsAll ce (dictKeys metadata.relations)
  let ce ← defineStorageEventsAll ce (dictKeys metadata.storage)
  .ok { «on» := ce, metadata := metadata }

/-! ### C1: the taxonomy of a charm with relations db, cache and storage logs -/

/-- A raw description declaring relation `db` under `requires`, relation
`cache` under `provides`, and storage `logs`. -/
def rawDbCacheLogs : RawMetadata :=
  { RawMetadata.empty with
    requires := [("db", { interface := some "mysql", scope := none })],
    provides := [("cache", { interface := some "memcache", scope := none })],
    storage := [("logs", { type := some "filesystem", description := none,
                           shared := none, read_only := none, minimum_size := none,
                           location := none, multiple := none })] }

/-- C1: for an instance constructed from metadata whose combined relation set
is `{db, cache}` and whose storage set is `{logs}`, the taxonomy contains
exactly 20 declarations — the 10 fixed lifecycle keys, the four
`{N}_relation_joined|changed|departed|broken` keys for each relation name,
and the two `{S}_storage_attached|detaching` keys for storage `logs` — and
`by_relation()` returns exactly the keys `db` and `cache`, each exposing 4
members, while `by_storage()` returns exactly the key `logs` exposing 2
members. -/
theorem taxonomy_db_cache_logs :
    ((metadata_from_raw (some rawDbCacheLogs)).toOption.bind fun md =>
      (CharmBase.init md).toOption).map
        (fun c => (c.«on».events.length, dictKeys c.«on».events,
                   c.«on».relation, c.«on».storage))
    = some (20,
        ["install", "start", "stop", "update_status", "config_changed",
         "upgrade_charm", "pre_series_upgrade", "post_series_upgrade",
         "leader_elected", "leader_settings_changed",
         "db_relation_joined", "db_relation_changed",
         "db_relation_departed", "db_relation_broken",
         "cache_relation_joined", "cache_relation_changed",
         "cache_relation_departed", "cache_relation_broken",
         "logs_storage_attached", "logs_storage_detaching"],
        .ok [("db", [("joined", .RelationJoinedEvent),
                     ("changed", .RelationChangedEvent),
                     ("departed", .RelationDepartedEvent),
                     ("broken", .RelationBrokenEvent)]),
             ("cache", [("joined", .RelationJoinedEvent),
                        ("changed", .RelationChangedEvent),
                        ("departed", .RelationDepartedEvent),
                        ("broken", .RelationBrokenEvent)])],
        .ok [("logs", [("attached", .StorageAttachedEvent),
                       ("detaching", .StorageDetachingEvent)])]) := by
  rfl

/-! ### C2: storage range parsing -/

/-- C2: for a storage definition whose raw mapping carries a `multiple` key
with a `range` token — if the token contains no `-` and is the integer `n`,
the parsed range is `(n, n)`; otherwise the token is split on `-` into lower
and upper parts, the lower is parsed as an integer, and the range is
`(lower, upper)` when the upper part is a non-empty integer and
`(lower, None)` when the upper part is empty. -/
theorem storage_range_parse (name ty tok : String) (raw : RawStorage)
    (hty : raw.type = some ty) (hm : raw.multiple = some { range := some tok }) :
    (pyIn "-" tok = false →
      ∀ n : Int, pyInt? tok = some n →
        (StorageDefinition.init name raw).toOption.map StorageDefinition.range
          = some (some (n, some n))) ∧
    (∀ p₀ p₁ : String, ∀ rest : List String,
      pyIn "-" tok = true → pySplit tok '-' = p₀ :: p₁ :: rest →
      ∀ lo : Int, pyInt? p₀ = some lo →
        ((p₁ = "" →
           (StorageDefinition.init name raw).toOption.map StorageDefinition.range
             = some (some (lo, none))) ∧
         (p₁ ≠ "" → ∀ hi : Int, pyInt? p₁ = some hi →
           (StorageDefinition.init name raw).toOption.map StorageDefinition.range
             = some (some (lo, some hi))))) := by
  constructor
  · intro hd n hn
    simp [StorageDefinition.init, hty, hm, hd, hn, Except.toOption]
  · intro p₀ p₁ rest hd hsplit lo hlo
    constructor
    · intro hp₁
      subst hp₁
      simp [StorageDefinition.init, hty, hm, hd, hsplit, hlo, Except.toOption]
    · intro hp₁ hi hhi
      simp [StorageDefinition.init, hty, hm, hd, hsplit, hlo, hp₁, hhi, Except.toOption]

/-- A raw storage definition of type `filesystem` with the given range
token under `multiple`. -/
def rawStorageRange (tok : String) : RawStorage :=
  { type := some "filesystem", description := none, shared := none,
    read_only := none, minimum_size := none, location := none,
    multiple := some { range := some tok } }

/-- Witness for `storage_range_parse` at the three spec examples:
`"3"` yields `(3, 3)`, `"2-"` yields `(2, None)`, `"1-5"` yields `(1, 5)`. -/
theorem storage_range_parse_witness :
    (StorageDefinition.init "data" (rawStorageRange "3")).toOption.map StorageDefinition.range
      = some (some (3, some 3)) ∧
    (StorageDefinition.init "data" (rawStorageRange "2-")).toOption.map StorageDefinition.range
      = some (some (2, none)) ∧
    (StorageDefinition.init "data" (rawStorageRange "1-5")).toOption.map StorageDefinition.range
      = some (some (1, some 5)) :=
  ⟨(storage_range_parse "data" "filesystem" "3" (rawStorageRange "3") rfl rfl).1
      (by rfl) 3 (by rfl),
   ((storage_range_parse "data" "filesystem" "2-" (rawStorageRange "2-") rfl rfl).2
      "2" "" [] (by rfl) (by rfl) 2 (by rfl)).1 rfl,
   ((storage_range_parse "data" "filesystem" "1-5" (rawStorageRange "1-5") rfl rfl).2
      "1" "5" [] (by rfl) (by rfl) 1 (by rfl)).2 (by simp) 5 (by rfl)⟩

/-! ### C3 counterexample: a relation name containing an underscore -/

/-- A raw description whose single relation name `a_b` contains an
underscore, so the generated key `a_b_relation_joined` splits into four
tokens. -/
def rawUnderscoreName : RawMetadata :=
  { RawMetadata.empty with
    requires := [("a_b", { interface := some "iface", scope := none })] }

/-- C3 counterexample: on the charm built from a relation named `a_b`, the
declaration key `a_b_relation_joined` contains the `_relation_` infix but
splits into four underscore-separated tokens, and `by_relation()` raises
`ValueError` instead of returning — refuting the claim that the accessors
still return in that situation. -/
theorem accessor_long_key_value_error :
    ((metadata_from_raw (some rawUnderscoreName)).toOption.bind fun md =>
      (CharmBase.init md).toOption).map (fun c => c.«on».relation)
    = some (.error .ValueError) := by
  rfl

/-! ### C3 (amended): accessor tolerance of non-matching keys -/

theorem relationLoop_skip (groups : Dict (Dict EventType)) (k : String) (v : EventType)
    (rest : Dict EventType) (h : pyIn "_relation_" k = false) :
    relationLoop groups ((k, v) :: rest) = relationLoop groups rest := by
  simp [relationLoop, h]

theorem storageLoop_skip (groups : Dict (Dict EventType)) (k : String) (v : EventType)
    (rest : Dict EventType) (h : pyIn "_storage_" k = false) :
    storageLoop groups ((k, v) :: rest) = storageLoop groups rest := by
  simp [storageLoop, h]

theorem relationLoop_isOk (evs : Dict EventType) :
    ∀ groups : Dict (Dict EventType),
    (∀ k, k ∈ dictKeys evs → pyIn "_relation_" k = true → (pySplit k '_').length = 3) →
    (relationLoop groups evs).isOk = true := by
  induction evs with
  | nil => intro groups _; rfl
  | cons p rest ih =>
    intro groups h
    obtain ⟨k, v⟩ := p
    cases hk : pyIn "_relation_" k with
    | false =>
      rw [relationLoop_skip groups k v rest hk]
      exact ih groups (fun k' hk' h' => h k' (by simp [dictKeys] at hk' ⊢; right; exact hk') h')
    | true =>
      have hlen : (pySplit k '_').length = 3 := h k (by simp [dictKeys]) hk
      obtain ⟨a, b, c, habc⟩ := List.length_eq_three.mp hlen
      simp only [relationLoop, hk, habc, if_true]
      exact ih _ (fun k' hk' h' => h k' (by simp [dictKeys] at hk' ⊢; right; exact hk') h')

theorem storageLoop_isOk (evs : Dict EventType) :
    ∀ groups : Dict (Dict EventType),
    (∀ k, k ∈ dictKeys evs → pyIn "_storage_" k = true → (pySplit k '_').length = 3) →
    (storageLoop groups evs).isOk = true := by
  induction evs with
  | nil => intro groups _; rfl
  | cons p rest ih =>
    intro groups h
    obtain ⟨k, v⟩ := p
    cases hk : pyIn "_storage_" k with
    | false =>
      rw [storageLoop_skip groups k v rest hk]
      exact ih groups (fun k' hk' h' => h k' (by simp [dictKeys] at hk' ⊢; right; exact hk') h')
    | true =>
      have hlen : (pySplit k '_').length = 3 := h k (by simp [dictKeys]) hk
      obtain ⟨a, b, c, habc⟩ := List.length_eq_three.mp hlen
      simp only [storageLoop, hk, habc, if_true]
      exact ih _ (fun k' hk' h' => h k' (by simp [dictKeys] at hk' ⊢; right; exact hk') h')

/-- C3 (amended): the grouping accessors skip, without error, every
declaration key that does not contain the relevant infix — such keys (for
example the fixed key `install`, which contains neither infix) contribute
nothing to either view — and when every key containing the infix splits into
exactly three underscore-separated tokens the accessors return a result.  (As
shown by `accessor_long_key_value_error`, an infix-containing key splitting
into more than three tokens instead makes the accessor raise `ValueError`,
so the original claim's tolerance of such keys does not hold.) -/
theorem accessor_views (ce : CharmEvents) (groups : Dict (Dict EventType))
    (k : String) (v : EventType) (rest : Dict EventType)
    (hr : ∀ k, k ∈ dictKeys ce.events → pyIn "_relation_" k = true →
      (pySplit k '_').length = 3)
    (hs : ∀ k, k ∈ dictKeys ce.events → pyIn "_storage_" k = true →
      (pySplit k '_').length = 3)
    (hkr : pyIn "_relation_" k = false) (hks : pyIn "_storage_" k = false) :
    (ce.relation).isOk = true ∧ (ce.storage).isOk = true ∧
    relationLoop groups ((k, v) :: rest) = relationLoop groups rest ∧
    storageLoop groups ((k, v) :: rest) = storageLoop groups rest :=
  ⟨relationLoop_isOk ce.events [] hr, storageLoop_isOk ce.events [] hs,
   relationLoop_skip groups k v rest hkr, storageLoop_skip groups k v rest hks⟩

/-- Witness for `accessor_views` at the base taxonomy of the ten fixed
lifecycle declarations and the fixed key `install`. -/
theorem accessor_views_witness :
    (charmEventsInit.relation).isOk = true ∧ (charmEventsInit.storage).isOk = true ∧
    relationLoop [] [("install", .InstallEvent)] = relationLoop [] [] ∧
    storageLoop [] [("install", .InstallEvent)] = storageLoop [] [] :=
  accessor_views charmEventsInit [] "install" .InstallEvent []
    (by decide) (by decide) (by decide) (by decide)

/-! ### Dictionary lemmas -/

theorem mem_dictKeys_dictInsert {α : Type} (d : Dict α) (k n : String) (v : α) :
    n ∈ dictKeys (dictInsert d k v) ↔ n ∈ dictKeys d ∨ n = k := by
  induction d with
  | nil => simp [dictInsert, dictKeys]
  | cons p rest ih =>
    obtain ⟨k₁, v₁⟩ := p
    by_cases hk : k₁ = k
    · subst hk
      simp [dictInsert, dictKeys]
      tauto
    · simp only [dictInsert, if_neg hk, dictKeys, List.map_cons, List.mem_cons]
      rw [show (dictKeys (dictInsert rest k v) = (dictInsert rest k v).map Prod.fst) from rfl] at ih
      rw [show (dictKeys rest = rest.map Prod.fst) from rfl] at ih
      rw [ih]
      tauto

theorem dictGet?_dictInsert {α : Type} (d : Dict α) (k n : String) (v : α) :
    dictGet? (dictInsert d k v) n = if k = n then some v else dictGet? d n := by
  induction d with
  | nil => simp [dictInsert, dictGet?]
  | cons p rest ih =>
    obtain ⟨k₁, v₁⟩ := p
    by_cases hk : k₁ = k
    · subst hk
      by_cases hn : k₁ = n
      · subst hn; simp [dictInsert, dictGet?]
      · simp [dictInsert, dictGet?, hn]
    · by_cases hn : k₁ = n
      · subst hn
        have : ¬(k = k₁) := fun h => hk h.symm
        simp [dictInsert, dictGet?, hk, this]
      · simp [dictInsert, dictGet?, hk, hn, ih]

theorem dictGet?_eq_none {α : Type} (d : Dict α) (n : String) (h : n ∉ dictKeys d) :
    dictGet? d n = none := by
  induction d with
  | nil => rfl
  | cons p rest ih =>
    obtain ⟨k₁, v₁⟩ := p
    simp only [dictKeys, List.map_cons, List.mem_cons, not_or] at h
    have : k₁ ≠ n := fun he => h.1 he.symm
    simpa [dictGet?, this] using ih (by simpa [dictKeys] using h.2)

theorem NoDupKeys_cons {α : Type} (k : String) (v : α) (d : Dict α) :
    NoDupKeys ((k, v) :: d) ↔ k ∉ dictKeys d ∧ NoDupKeys d := by
  unfold NoDupKeys dictKeys
  rw [List.map_cons, List.nodup_cons]

theorem dictGet?_dictUpdate {α : Type} (d₂ : Dict α) :
    ∀ d₁ : Dict α, NoDupKeys d₂ → ∀ n,
      dictGet? (dictUpdate d₁ d₂) n = (dictGet? d₂ n).orElse (fun _ => dictGet? d₁ n) := by
  induction d₂ with
  | nil => intro d₁ _ n; rfl
  | cons p rest ih =>
    intro d₁ hnd n
    obtain ⟨k, v⟩ := p
    obtain ⟨hk, hnd'⟩ := (NoDupKeys_cons k v rest).mp hnd
    rw [show dictUpdate d₁ ((k, v) :: rest) = dictUpdate (dictInsert d₁ k v) rest from rfl]
    rw [ih (dictInsert d₁ k v) hnd' n, dictGet?_dictInsert]
    by_cases hn : k = n
    · subst hn
      rw [dictGet?_eq_none rest k hk]
      simp [dictGet?, Option.orElse]
    · simp [dictGet?, hn, Option.orElse]

theorem mem_dictKeys_dictUpdate {α : Type} (d₂ : Dict α) :
    ∀ d₁ : Dict α, ∀ n,
      n ∈ dictKeys (dictUpdate d₁ d₂) ↔ n ∈ dictKeys d₁ ∨ n ∈ dictKeys d₂ := by
  induction d₂ with
  | nil => intro d₁ n; simp [dictUpdate, dictKeys]
  | cons p rest ih =>
    intro d₁ n
    obtain ⟨k, v⟩ := p
    rw [show dictUpdate d₁ ((k, v) :: rest) = dictUpdate (dictInsert d₁ k v) rest from rfl]
    rw [ih (dictInsert d₁ k v) n, mem_dictKeys_dictInsert]
    simp only [dictKeys, List.map_cons, List.mem_cons]
    tauto

theorem NoDupKeys_dictInsert {α : Type} (d : Dict α) (k : String) (v : α)
    (h : NoDupKeys d) : NoDupKeys (dictInsert d k v) := by
  induction d with
  | nil =>
    rw [show dictInsert ([] : Dict α) k v = [(k, v)] from rfl]
    exact (NoDupKeys_cons k v []).mpr ⟨by simp [dictKeys], by simp [NoDupKeys, dictKeys]⟩
  | cons p rest ih =>
    obtain ⟨k₁, v₁⟩ := p
    obtain ⟨h₁, h₂⟩ := (NoDupKeys_cons k₁ v₁ rest).mp h
    by_cases hk : k₁ = k
    · rw [show dictInsert ((k₁, v₁) :: rest) k v = (k, v) :: rest from by
        simp [dictInsert, hk]]
      exact (NoDupKeys_cons k v rest).mpr ⟨hk ▸ h₁, h₂⟩
    · rw [show dictInsert ((k₁, v₁) :: rest) k v = (k₁, v₁) :: dictInsert rest k v from by
        simp [dictInsert, hk]]
      refine (NoDupKeys_cons k₁ v₁ (dictInsert rest k v)).mpr ⟨?_, ih h₂⟩
      rw [mem_dictKeys_dictInsert]
      rintro (hm | he)
      · exact h₁ hm
      · exact hk he

theorem NoDupKeys_dictUpdate {α : Type} (d₂ : Dict α) :
    ∀ d₁ : Dict α, NoDupKeys d₁ → NoDupKeys (dictUpdate d₁ d₂) := by
  induction d₂ with
  | nil => intro d₁ h; exact h
  | cons p rest ih =>
    intro d₁ h
    exact ih (dictInsert d₁ p.1 p.2) (NoDupKeys_dictInsert d₁ p.1 p.2 h)

/-! ### Except lemmas -/

theorem except_ok_bind {e a b : Type} (x : a) (f : a → Except e b) :
    (Except.ok x : Except e a) >>= f = f x := rfl

theorem except_error_bind {e a b : Type} (err : e) (f : a → Except e b) :
    (Except.error err : Except e a) >>= f = Except.error err := rfl

theorem except_isOk_ok {e a : Type} (x : a) : (Except.ok x : Except e a).isOk = true := rfl

theorem except_isOk_error {e a : Type} (err : e) :
    (Except.error err : Except e a).isOk = false := rfl

/-! ### parseDefs lemmas -/

theorem parseDefs_keys {R D : Type} (f : String → R → Except MetadataError D)
    (l : Dict R) : ∀ d : Dict D, parseDefs f l = .ok d → dictKeys d = dictKeys l := by
  induction l with
  | nil => intro d h; cases h; rfl
  | cons p rest ih =>
    intro d h
    obtain ⟨n, r⟩ := p
    cases hf : f n r with
    | error e => rw [parseDefs, hf, except_error_bind] at h; exact absurd h (by simp)
    | ok v =>
      cases hrest : parseDefs f rest with
      | error e =>
        rw [parseDefs, hf, except_ok_bind, hrest, except_error_bind] at h
        exact absurd h (by simp)
      | ok ds =>
        rw [parseDefs, hf, except_ok_bind, hrest, except_ok_bind] at h
        cases h
        simp only [dictKeys, List.map_cons]
        exact congrArg (List.cons n) (ih ds hrest)

theorem parseDefs_get {R D : Type} (f : String → R → Except MetadataError D)
    (l : Dict R) : ∀ d : Dict D, parseDefs f l = .ok d → ∀ n r,
      dictGet? l n = some r → ∃ v, f n r = .ok v ∧ dictGet? d n = some v := by
  induction l with
  | nil => intro d _ n r hg; exact absurd hg (by simp [dictGet?])
  | cons p rest ih =>
    intro d h n r hg
    obtain ⟨n₁, r₁⟩ := p
    cases hf : f n₁ r₁ with
    | error e => rw [parseDefs, hf, except_error_bind] at h; exact absurd h (by simp)
    | ok v =>
      cases hrest : parseDefs f rest with
      | error e =>
        rw [parseDefs, hf, except_ok_bind, hrest, except_error_bind] at h
        exact absurd h (by simp)
      | ok ds =>
        rw [parseDefs, hf, except_ok_bind, hrest, except_ok_bind] at h
        cases h
        by_cases hn : n₁ = n
        · subst hn
          rw [dictGet?] at hg
          simp only [if_pos rfl] at hg
          cases hg
          exact ⟨v, hf, by simp [dictGet?]⟩
        · rw [dictGet?] at hg
          simp only [if_neg hn] at hg
          obtain ⟨w, hw, hwg⟩ := ih ds hrest n r hg
          exact ⟨w, hw, by simpa [dictGet?, hn] using hwg⟩

theorem parseDefs_isOk_iff {R D : Type} (f : String → R → Except MetadataError D)
    (l : Dict R) :
    (parseDefs f l).isOk = true ↔ ∀ p ∈ l, (f p.1 p.2).isOk = true := by
  induction l with
  | nil => simp [parseDefs, except_isOk_ok]
  | cons p rest ih =>
    obtain ⟨n, r⟩ := p
    constructor
    · intro h
      cases hf : f n r with
      | error e =>
        rw [parseDefs, hf, except_error_bind, except_isOk_error] at h
        exact absurd h (by simp)
      | ok v =>
        cases hrest : parseDefs f rest with
        | error e =>
          rw [parseDefs, hf, except_ok_bind, hrest, except_error_bind,
            except_isOk_error] at h
          exact absurd h (by simp)
        | ok ds =>
          intro q hq
          rcases List.mem_cons.mp hq with hq | hq
          · subst hq; simp [hf, except_isOk_ok]
          · exact (ih.mp (by simp [hrest, except_isOk_ok])) q hq
    · intro h
      have hf : (f n r).isOk = true := h (n, r) (by simp)
      cases hfe : f n r with
      | error e => rw [hfe, except_isOk_error] at hf; exact absurd hf (by simp)
      | ok v =>
        have hrest : (parseDefs f rest).isOk = true :=
          ih.mpr (fun q hq => h q (List.mem_cons_of_mem _ hq))
        cases hre : parseDefs f rest with
        | error e => rw [hre, except_isOk_error] at hrest; exact absurd hrest (by simp)
        | ok ds =>
          rw [parseDefs, hfe, except_ok_bind, hre, except_ok_bind]
          exact except_isOk_ok _

theorem parseDefs_error {R D : Type} (f : String → R → Except MetadataError D)
    (l : Dict R) : ∀ e, parseDefs f l = .error e → ∃ p ∈ l, f p.1 p.2 = .error e := by
  induction l with
  | nil => intro e h; cases h
  | cons p rest ih =>
    intro e h
    obtain ⟨n, r⟩ := p
    cases hf : f n r with
    | error e₁ =>
      rw [parseDefs, hf, except_error_bind] at h
      cases h
      exact ⟨(n, r), by simp, hf⟩
    | ok v =>
      cases hrest : parseDefs f rest with
      | error e₁ =>
        rw [parseDefs, hf, except_ok_bind, hrest, except_error_bind] at h
        cases h
        obtain ⟨q, hq, hqe⟩ := ih _ hrest
        exact ⟨q, List.mem_cons_of_mem _ hq, hqe⟩
      | ok ds =>
        rw [parseDefs, hf, except_ok_bind, hrest, except_ok_bind] at h
        exact absurd h (by simp)

/-! ### Inversion of a successful metadata parse -/

theorem metadata_from_raw_ok_inv (raw : RawMetadata) (md : CharmMetadata)
    (h : metadata_from_raw (some raw) = .ok md) :
    parseDefs (RelationDefinition.init "requires") raw.requires = .ok md.requires ∧
    parseDefs (RelationDefinition.init "provides") raw.provides = .ok md.provides ∧
    parseDefs (RelationDefinition.init "peers") raw.peers = .ok md.peers ∧
    md.relations
      = dictUpdate (dictUpdate (dictUpdate [] md.requires) md.provides) md.peers ∧
    parseDefs StorageDefinition.init raw.storage = .ok md.storage ∧
    parseDefs ResourceDefinition.init raw.resources = .ok md.resources ∧
    parseDefs PayloadDefinition.init raw.payloads = .ok md.payloads ∧
    md.maintainers = (match raw.maintainer with
      | some m => [m]
      | none => []) ++ raw.maintainers.getD [] ∧
    md.name = raw.name.getD "" ∧
    md.summary = raw.summary.getD "" ∧
    md.description = raw.description.getD "" ∧
    md.tags = raw.tags.getD [] ∧
    md.terms = raw.terms.getD [] ∧
    md.series = raw.series.getD [] ∧
    md.subordinate = raw.subordinate.getD false ∧
    md.min_juju_version = raw.min_juju_version ∧
    md.extra_bindings = raw.extra_bindings.getD [] := by
  rw [metadata_from_raw, CharmMetadata.init] at h
  simp only [Option.getD_some] at h
  cases hreq : parseDefs (RelationDefinition.init "requires") raw.requires with
  | error e => rw [hreq, except_error_bind] at h; exact absurd h (by simp)
  | ok req =>
  rw [hreq, except_ok_bind] at h
  cases hprov : parseDefs (RelationDefinition.init "provides") raw.provides with
  | error e => rw [hprov, except_error_bind] at h; exact absurd h (by simp)
  | ok prov =>
  rw [hprov, except_ok_bind] at h
  cases hpeer : parseDefs (RelationDefinition.init "peers") raw.peers with
  | error e => rw [hpeer, except_error_bind] at h; exact absurd h (by simp)
  | ok peer =>
  rw [hpeer, except_ok_bind] at h
  cases hsto : parseDefs StorageDefinition.init raw.storage with
  | error e => rw [hsto, except_error_bind] at h; exact absurd h (by simp)
  | ok sto =>
  rw [hsto, except_ok_bind] at h
  cases hres : parseDefs ResourceDefinition.init raw.resources with
  | error e => rw [hres, except_error_bind] at h; exact absurd h (by simp)
  | ok res =>
  rw [hres, except_ok_bind] at h
  cases hpay : parseDefs PayloadDefinition.init raw.payloads with
  | error e => rw [hpay, except_error_bind] at h; exact absurd h (by simp)
  | ok pay =>
  rw [hpay, except_ok_bind] at h
  cases h
  exact ⟨rfl, rfl, rfl, rfl, rfl, rfl, rfl, rfl, rfl, rfl, rfl, rfl, rfl,
    rfl, rfl, rfl, rfl⟩

/-! ### More dictionary lemmas -/

theorem dictGet?_dictUpdate_not_mem {α : Type} (d₂ : Dict α) :
    ∀ d₁ n, n ∉ dictKeys d₂ → dictGet? (dictUpdate d₁ d₂) n = dictGet? d₁ n := by
  induction d₂ with
  | nil => intro d₁ n _; rfl
  | cons p rest ih =>
    intro d₁ n hn
    obtain ⟨k, v⟩ := p
    simp only [dictKeys, List.map_cons, List.mem_cons, not_or] at hn
    rw [show dictUpdate d₁ ((k, v) :: rest) = dictUpdate (dictInsert d₁ k v) rest from rfl]
    rw [ih (dictInsert d₁ k v) n (by simpa [dictKeys] using hn.2), dictGet?_dictInsert]
    rw [if_neg (fun he => hn.1 he.symm)]

theorem dictGet?_dictUpdate_nil {α : Type} (d : Dict α) (n : String)
    (hnd : NoDupKeys d) : dictGet? (dictUpdate ([] : Dict α) d) n = dictGet? d n := by
  rw [dictGet?_dictUpdate d [] hnd n]
  cases dictGet? d n <;> rfl

theorem mem_dictKeys_of_get {α : Type} (d : Dict α) (n : String) (v : α)
    (h : dictGet? d n = some v) : n ∈ dictKeys d := by
  induction d with
  | nil => exact absurd h (by simp [dictGet?])
  | cons p rest ih =>
    obtain ⟨k, w⟩ := p
    by_cases hk : k = n
    · simp [dictKeys, hk]
    · rw [dictGet?, if_neg hk] at h
      simp only [dictKeys, List.map_cons, List.mem_cons]
      exact Or.inr (ih h)

theorem NoDupKeys_relations (md : CharmMetadata)
    (h4 : md.relations
      = dictUpdate (dictUpdate (dictUpdate [] md.requires) md.provides) md.peers) :
    NoDupKeys md.relations := by
  rw [h4]
  exact NoDupKeys_dictUpdate md.peers _
    (NoDupKeys_dictUpdate md.provides _
      (NoDupKeys_dictUpdate md.requires [] (by simp [NoDupKeys, dictKeys])))

/-! ### C4: the relations mapping is the role union with later-role overwrite -/

/-- C4: for every parsed metadata value (whose raw role mappings, being
Python dicts, have unique keys), the lookup of any name in `relations` is the
peers value, else the provides value, else the requires value — so with
pairwise-disjoint role keys each name is bound to its unique role's
definition, and on a cross-role collision the later role in the order
requires, provides, peers silently overwrites the earlier; `relations` has no
duplicate keys (each name appears exactly once) and its key set is exactly
the union of the three role key sets. -/
theorem relations_union_of_roles (raw : RawMetadata) (md : CharmMetadata)
    (hreq : NoDupKeys raw.requires) (hprov : NoDupKeys raw.provides)
    (hpeer : NoDupKeys raw.peers)
    (h : metadata_from_raw (some raw) = .ok md) :
    (∀ n, dictGet? md.relations n
      = ((dictGet? md.peers n).orElse (fun _ =>
          (dictGet? md.provides n).orElse (fun _ => dictGet? md.requires n)))) ∧
    NoDupKeys md.relations ∧
    (∀ n, n ∈ dictKeys md.relations ↔
      n ∈ dictKeys md.requires ∨ n ∈ dictKeys md.provides ∨ n ∈ dictKeys md.peers) := by
  obtain ⟨h1, h2, h3, h4, -⟩ := metadata_from_raw_ok_inv raw md h
  have hn1 : NoDupKeys md.requires := by
    unfold NoDupKeys; rw [parseDefs_keys _ _ _ h1]; exact hreq
  have hn2 : NoDupKeys md.provides := by
    unfold NoDupKeys; rw [parseDefs_keys _ _ _ h2]; exact hprov
  have hn3 : NoDupKeys md.peers := by
    unfold NoDupKeys; rw [parseDefs_keys _ _ _ h3]; exact hpeer
  refine ⟨?_, NoDupKeys_relations md h4, ?_⟩
  · intro n
    have e3 := dictGet?_dictUpdate md.peers
      (dictUpdate (dictUpdate [] md.requires) md.provides) hn3 n
    have e2 := dictGet?_dictUpdate md.provides (dictUpdate [] md.requires) hn2 n
    have e1 := dictGet?_dictUpdate_nil md.requires n hn1
    rw [h4, e3]
    congr 1
    funext u
    rw [e2]
    congr 1
    funext u'
    exact e1
  · intro n
    rw [h4, mem_dictKeys_dictUpdate, mem_dictKeys_dictUpdate, mem_dictKeys_dictUpdate]
    simp only [dictKeys, List.map_nil, List.not_mem_nil, false_or]
    tauto

/-- A raw description declaring the same relation name `db` under both
`requires` and `provides`. -/
def rawDbCollide : RawMetadata :=
  { RawMetadata.empty with
    requires := [("db", { interface := some "mysql", scope := none })],
    provides := [("db", { interface := some "redis", scope := none })] }

/-- The metadata parsed from `rawDbCollide`: `relations` holds a single `db`
entry, the one from `provides` (the later role). -/
def mdDbCollide : CharmMetadata :=
  { name := "", summary := "", description := "", maintainers := [],
    tags := [], terms := [], series := [], subordinate := false,
    min_juju_version := none,
    requires := [("db", { role := "requires", relation_name := "db",
                          interface_name := "mysql", scope := none })],
    provides := [("db", { role := "provides", relation_name := "db",
                          interface_name := "redis", scope := none })],
    peers := [],
    relations := [("db", { role := "provides", relation_name := "db",
                           interface_name := "redis", scope := none })],
    storage := [], resources := [], payloads := [], extra_bindings := [] }

/-- Witness for `relations_union_of_roles` at a cross-role `db` collision. -/
theorem relations_union_of_roles_witness :
    dictGet? mdDbCollide.relations "db"
      = ((dictGet? mdDbCollide.peers "db").orElse (fun _ =>
          (dictGet? mdDbCollide.provides "db").orElse (fun _ =>
            dictGet? mdDbCollide.requires "db"))) :=
  (relations_union_of_roles rawDbCollide mdDbCollide
    (by decide) (by decide) (by decide) (by rfl)).1 "db"

/-! ### C6: relation definitions carry the raw interface and the source role -/

/-- C6: for every valid raw relation definition, the resulting
`RelationDefinition` has `interface_name` equal to the raw `interface` value
and `role` equal to the role mapping it was parsed from; and a relation named
`n` that appears under `requires` only (with unique raw keys, as in a Python
dict) produces exactly one `relations[n]` entry, whose role is `requires`. -/
theorem relation_definition_fields (role n i : String) (r : RawRelation)
    (raw : RawMetadata) (md : CharmMetadata)
    (hi : r.interface = some i)
    (hok : metadata_from_raw (some raw) = .ok md)
    (hnd : NoDupKeys raw.requires)
    (hget : dictGet? raw.requires n = some r)
    (hp : n ∉ dictKeys raw.provides) (hpe : n ∉ dictKeys raw.peers) :
    RelationDefinition.init role n r
      = .ok { role := role, relation_name := n, interface_name := i,
              scope := r.scope } ∧
    dictGet? md.relations n
      = some { role := "requires", relation_name := n, interface_name := i,
               scope := r.scope } ∧
    (dictKeys md.relations).count n = 1 := by
  obtain ⟨h1, h2, h3, h4, -⟩ := metadata_from_raw_ok_inv raw md hok
  have hn1 : NoDupKeys md.requires := by
    unfold NoDupKeys; rw [parseDefs_keys _ _ _ h1]; exact hnd
  have hp' : n ∉ dictKeys md.provides := by
    rw [parseDefs_keys _ _ _ h2]; exact hp
  have hpe' : n ∉ dictKeys md.peers := by
    rw [parseDefs_keys _ _ _ h3]; exact hpe
  obtain ⟨v, hv, hvg⟩ := parseDefs_get _ _ _ h1 n r hget
  rw [RelationDefinition.init, hi] at hv
  cases hv
  have hrel : dictGet? md.relations n
      = some { role := "requires", relation_name := n, interface_name := i,
               scope := r.scope } := by
    rw [h4, dictGet?_dictUpdate_not_mem md.peers _ n hpe',
      dictGet?_dictUpdate_not_mem md.provides _ n hp',
      dictGet?_dictUpdate_nil md.requires n hn1]
    exact hvg
  refine ⟨by rw [RelationDefinition.init, hi], hrel, ?_⟩
  exact List.count_eq_one_of_mem (NoDupKeys_relations md h4)
    (mem_dictKeys_of_get md.relations n _ hrel)

/-- A raw description declaring relation `db` under `requires` only. -/
def rawDbRequires : RawMetadata :=
  { RawMetadata.empty with
    requires := [("db", { interface := some "mysql", scope := none })] }

/-- The metadata parsed from `rawDbRequires`. -/
def mdDbRequires : CharmMetadata :=
  { name := "", summary := "", description := "", maintainers := [],
    tags := [], terms := [], series := [], subordinate := false,
    min_juju_version := none,
    requires := [("db", { role := "requires", relation_name := "db",
                          interface_name := "mysql", scope := none })],
    provides := [], peers := [],
    relations := [("db", { role := "requires", relation_name := "db",
                           interface_name := "mysql", scope := none })],
    storage := [], resources := [], payloads := [], extra_bindings := [] }

/-- Witness for `relation_definition_fields`: relation `db` under `requires`
with interface `mysql`. -/
theorem relation_definition_fields_witness :
    RelationDefinition.init "requires" "db" { interface := some "mysql", scope := none }
      = .ok { role := "requires", relation_name := "db", interface_name := "mysql",
              scope := none } ∧
    dictGet? mdDbRequires.relations "db"
      = some { role := "requires", relation_name := "db", interface_name := "mysql",
               scope := none } ∧
    (dictKeys mdDbRequires.relations).count "db" = 1 :=
  relation_definition_fields "requires" "db" "mysql"
    { interface := some "mysql", scope := none } rawDbRequires mdDbRequires
    rfl (by rfl) (by decide) rfl (by decide) (by decide)

/-! ### C9: maintainers assembled singular-first -/

/-- C9: the parsed `maintainers` sequence is the singular `maintainer` entry
(if present) followed by the `maintainers` list (if present): when both raw
fields are present the results are concatenated with the singular entry
first, when only one is present it alone supplies the sequence, and when
neither is present the sequence is empty. -/
theorem maintainers_concat (raw : RawMetadata) (md : CharmMetadata)
    (h : metadata_from_raw (some raw) = .ok md) :
    md.maintainers = (match raw.maintainer with
      | some m => [m]
      | none => []) ++ raw.maintainers.getD [] :=
  (metadata_from_raw_ok_inv raw md h).2.2.2.2.2.2.2.1

/-- A raw description with both the singular and the plural maintainer
fields. -/
def rawMaint : RawMetadata :=
  { RawMetadata.empty with
    maintainer := some "alice", maintainers := some ["bob", "carol"] }

/-- The metadata parsed from `rawMaint`. -/
def mdMaint : CharmMetadata :=
  { name := "", summary := "", description := "",
    maintainers := ["alice", "bob", "carol"],
    tags := [], terms := [], series := [], subordinate := false,
    min_juju_version := none,
    requires := [], provides := [], peers := [], relations := [],
    storage := [], resources := [], payloads := [], extra_bindings := [] }

/-- Witness for `maintainers_concat`: both fields present, singular first. -/
theorem maintainers_concat_witness :
    mdMaint.maintainers = (match rawMaint.maintainer with
      | some m => [m]
      | none => []) ++ rawMaint.maintainers.getD [] :=
  maintainers_concat rawMaint mdMaint (by rfl)

/-! ### C8: defaults of an empty raw description -/

/-- A raw description with a `name` key but none of the
requires/provides/peers/storage/resources/payloads keys. -/
def rawNamedOnly : RawMetadata :=
  { RawMetadata.empty with name := some "postgres" }

/-- C8 counterexample: a raw description with no
relations/storage/resources/payloads keys but with a `name` key parses to a
metadata whose `name` is `postgres`, not the empty-string default — so not
every scalar takes its default for every such raw description. -/
theorem named_raw_scalar_not_default :
    (metadata_from_raw (some rawNamedOnly)).toOption.map CharmMetadata.name
      = some "postgres" ∧ some "postgres" ≠ some ("" : String) :=
  ⟨rfl, by simp⟩

/-- The tuple of the seven mapping fields of a metadata value. -/
def mappingFields (md : CharmMetadata) :
    Dict RelationDefinition × Dict RelationDefinition × Dict RelationDefinition ×
    Dict RelationDefinition × Dict StorageDefinition × Dict ResourceDefinition ×
    Dict PayloadDefinition :=
  (md.requires, md.provides, md.peers, md.relations, md.storage, md.resources,
   md.payloads)

/-- C8 (amended): for every raw description with no
requires/provides/peers/storage/resources/payloads keys, the parse succeeds
and all seven mapping fields (requires, provides, peers, relations, storage,
resources, payloads) are empty; and for an entirely absent (`None`) raw
description, additionally all sequence fields are empty and all scalars take
their stated defaults (empty name/summary/description, subordinate false,
minimum platform version absent). -/
theorem empty_raw_defaults (raw : RawMetadata)
    (h1 : raw.requires = []) (h2 : raw.provides = []) (h3 : raw.peers = [])
    (h4 : raw.storage = []) (h5 : raw.resources = []) (h6 : raw.payloads = []) :
    (metadata_from_raw (some raw)).toOption.map mappingFields
      = some ([], [], [], [], [], [], []) ∧
    metadata_from_raw none = .ok
      { name := "", summary := "", description := "", maintainers := [],
        tags := [], terms := [], series := [], subordinate := false,
        min_juju_version := none, requires := [], provides := [], peers := [],
        relations := [], storage := [], resources := [], payloads := [],
        extra_bindings := [] } := by
  constructor
  · rw [metadata_from_raw, CharmMetadata.init]
    simp only [Option.getD_some, h1, h2, h3, h4, h5, h6]
    rfl
  · rfl

/-- Witness for `empty_raw_defaults` at the empty raw description. -/
theorem empty_raw_defaults_witness :
    (metadata_from_raw (some RawMetadata.empty)).toOption.map mappingFields
      = some ([], [], [], [], [], [], []) ∧
    metadata_from_raw none = .ok
      { name := "", summary := "", description := "", maintainers := [],
        tags := [], terms := [], series := [], subordinate := false,
        min_juju_version := none, requires := [], provides := [], peers := [],
        relations := [], storage := [], resources := [], payloads := [],
        extra_bindings := [] } :=
  empty_raw_defaults RawMetadata.empty rfl rfl rfl rfl rfl rfl

/-! ### C5: completeness conditions, stated from the spec's words -/

/-- Following the spec: a raw relation definition is complete when its
required field `interface` is present. -/
def rawRelationComplete (r : RawRelation) : Bool :=
  r.interface.isSome

/-- Following the spec: the compact range token has numeric bounds — a plain
integer when there is no separator, otherwise an integer lower bound and an
integer-or-empty upper bound. -/
def rangeTokenNumeric (tok : String) : Bool :=
  if pyIn "-" tok then
    match pySplit tok '-' with
    | p₀ :: p₁ :: _ => (pyInt? p₀).isSome && ((p₁ == "") || (pyInt? p₁).isSome)
    | _ => false
  else (pyInt? tok).isSome

/-- Following the spec: a raw storage definition is complete when its required
field `type` is present and, if it declares `multiple`, the `range` token is
present with numeric bounds. -/
def rawStorageComplete (s : RawStorage) : Bool :=
  s.type.isSome && (match s.multiple with
    | none => true
    | some m => match m.range with
      | none => false
      | some tok => rangeTokenNumeric tok)

/-- Following the spec: a raw resource definition is complete when its
required fields `type` and `filename` are present. -/
def rawResourceComplete (r : RawResource) : Bool :=
  r.type.isSome && r.filename.isSome

/-- Following the spec: a raw payload definition is complete when its
required field `type` is present. -/
def rawPayloadComplete (p : RawPayload) : Bool :=
  p.type.isSome

theorem relation_init_isOk (role n : String) (r : RawRelation) :
    (RelationDefinition.init role n r).isOk = rawRelationComplete r := by
  rw [RelationDefinition.init, rawRelationComplete]
  cases r.interface <;> rfl

theorem storage_init_isOk (n : String) (s : RawStorage) :
    (StorageDefinition.init n s).isOk = rawStorageComplete s := by
  obtain ⟨ty?, de?, sh?, ro?, ms?, lo?, mu?⟩ := s
  cases ty? with
  | none => rfl
  | some ty =>
    cases mu? with
    | none => rfl
    | some m =>
      obtain ⟨rng?⟩ := m
      cases rng? with
      | none => rfl
      | some tok =>
        simp only [StorageDefinition.init, rawStorageComplete, rangeTokenNumeric]
        cases hd : pyIn "-" tok with
        | false =>
          cases hn : pyInt? tok <;>
            simp [hd, hn, except_isOk_ok, except_isOk_error]
        | true =>
          cases hs : pySplit tok '-' with
          | nil => simp [hd, hs, except_isOk_error]
          | cons p₀ t =>
            cases t with
            | nil => simp [hd, hs, except_isOk_error]
            | cons p₁ t' =>
              cases hl : pyInt? p₀ with
              | none => simp [hd, hs, hl, except_isOk_error]
              | some lo =>
                by_cases hp : p₁ = ""
                · simp [hd, hs, hl, hp, except_isOk_ok]
                · cases hh : pyInt? p₁ <;>
                    simp [hd, hs, hl, hp, hh, except_isOk_ok, except_isOk_error]

theorem resource_init_isOk (n : String) (r : RawResource) :
    (ResourceDefinition.init n r).isOk = rawResourceComplete r := by
  rw [ResourceDefinition.init, rawResourceComplete]
  cases r.type with
  | none => rfl
  | some ty => cases r.filename <;> rfl

theorem payload_init_isOk (n : String) (p : RawPayload) :
    (PayloadDefinition.init n p).isOk = rawPayloadComplete p := by
  rw [PayloadDefinition.init, rawPayloadComplete]
  cases p.type <;> rfl

theorem relation_init_error (role n : String) (r : RawRelation) (e : MetadataError)
    (h : RelationDefinition.init role n r = .error e) :
    e = .MissingField "interface" ∧ r.interface = none := by
  rw [RelationDefinition.init] at h
  cases hi : r.interface with
  | none => rw [hi] at h; cases h; exact ⟨rfl, rfl⟩
  | some i => rw [hi] at h; cases h

theorem storage_init_error (n : String) (s : RawStorage) (e : MetadataError)
    (h : StorageDefinition.init n s = .error e) :
    (e = .MissingField "type" ∧ s.type = none) ∨
    (e = .MissingField "range" ∧ s.multiple = some { range := none }) ∨
    (∃ tok, e = .InvalidFormat tok ∧ s.multiple = some { range := some tok } ∧
      rangeTokenNumeric tok = false) := by
  obtain ⟨ty?, de?, sh?, ro?, ms?, lo?, mu?⟩ := s
  cases ty? with
  | none =>
    simp only [StorageDefinition.init] at h
    cases h
    exact Or.inl ⟨rfl, rfl⟩
  | some ty =>
    cases mu? with
    | none => simp only [StorageDefinition.init] at h; cases h
    | some m =>
      obtain ⟨rng?⟩ := m
      cases rng? with
      | none =>
        simp only [StorageDefinition.init] at h
        cases h
        exact Or.inr (Or.inl ⟨rfl, rfl⟩)
      | some tok =>
        simp only [StorageDefinition.init] at h
        refine Or.inr (Or.inr ⟨tok, ?_⟩)
        cases hd : pyIn "-" tok with
        | false =>
          rw [hd] at h
          simp only [Bool.false_eq_true, if_false] at h
          cases hn : pyInt? tok with
          | none =>
            rw [hn] at h
            cases h
            exact ⟨rfl, rfl, by simp [rangeTokenNumeric, hd, hn]⟩
          | some v => rw [hn] at h; cases h
        | true =>
          rw [hd] at h
          simp only [if_true] at h
          cases hs : pySplit tok '-' with
          | nil =>
            rw [hs] at h
            cases h
            exact ⟨rfl, rfl, by simp [rangeTokenNumeric, hd, hs]⟩
          | cons p₀ t =>
            cases t with
            | nil =>
              rw [hs] at h
              cases h
              exact ⟨rfl, rfl, by simp [rangeTokenNumeric, hd, hs]⟩
            | cons p₁ t' =>
              rw [hs] at h
              dsimp only [] at h
              cases hl : pyInt? p₀ with
              | none =>
                rw [hl] at h
                cases h
                exact ⟨rfl, rfl, by simp [rangeTokenNumeric, hd, hs, hl]⟩
              | some lo =>
                rw [hl] at h
                dsimp only [] at h
                by_cases hp : p₁ = ""
                · rw [if_pos hp] at h; cases h
                · rw [if_neg hp] at h
                  cases hh : pyInt? p₁ with
                  | none =>
                    rw [hh] at h
                    cases h
                    exact ⟨rfl, rfl, by simp [rangeTokenNumeric, hd, hs, hl, hp, hh]⟩
                  | some hi => rw [hh] at h; cases h

theorem resource_init_error (n : String) (r : RawResource) (e : MetadataError)
    (h : ResourceDefinition.init n r = .error e) :
    (e = .MissingField "type" ∧ r.type = none) ∨
    (e = .MissingField "filename" ∧ r.filename = none) := by
  rw [ResourceDefinition.init] at h
  cases hty : r.type with
  | none => rw [hty] at h; cases h; exact Or.inl ⟨rfl, rfl⟩
  | some ty =>
    rw [hty] at h
    cases hf : r.filename with
    | none => rw [hf] at h; cases h; exact Or.inr ⟨rfl, rfl⟩
    | some fn => rw [hf] at h; cases h

theorem payload_init_error (n : String) (p : RawPayload) (e : MetadataError)
    (h : PayloadDefinition.init n p = .error e) :
    e = .MissingField "type" ∧ p.type = none := by
  rw [PayloadDefinition.init] at h
  cases hty : p.type with
  | none => rw [hty] at h; cases h; exact ⟨rfl, rfl⟩
  | some ty => rw [hty] at h; cases h

/-- An error reported by the metadata parse is accounted for by the raw
description: a `MissingField` (the bare `KeyError`, carrying only the field)
is raised only when some nested definition — identifiable by name in the raw
description, though the exception itself does not carry that name — indeed
omits that required field, and an `InvalidFormat` names a range token that
indeed has non-numeric bounds. -/
def errorWitnessed (raw : RawMetadata) : MetadataError → Prop
  | .MissingField f =>
      (f = "interface" ∧ ∃ nm, ∃ r : RawRelation,
        ((nm, r) ∈ raw.requires ∨ (nm, r) ∈ raw.provides ∨ (nm, r) ∈ raw.peers) ∧
        r.interface = none) ∨
      (f = "type" ∧
        ((∃ nm, ∃ s : RawStorage, (nm, s) ∈ raw.storage ∧ s.type = none) ∨
         (∃ nm, ∃ r : RawResource, (nm, r) ∈ raw.resources ∧ r.type = none) ∨
         (∃ nm, ∃ p : RawPayload, (nm, p) ∈ raw.payloads ∧ p.type = none))) ∨
      (f = "filename" ∧ ∃ nm, ∃ r : RawResource,
        (nm, r) ∈ raw.resources ∧ r.filename = none) ∨
      (f = "range" ∧ ∃ nm, ∃ s : RawStorage,
        (nm, s) ∈ raw.storage ∧ s.multiple = some { range := none })
  | .InvalidFormat tok =>
      ∃ nm, ∃ s : RawStorage, (nm, s) ∈ raw.storage ∧
        s.multiple = some { range := some tok } ∧ rangeTokenNumeric tok = false

theorem metadata_isOk_iff (raw : RawMetadata) :
    (metadata_from_raw (some raw)).isOk = true ↔
      ((parseDefs (RelationDefinition.init "requires") raw.requires).isOk = true ∧
       (parseDefs (RelationDefinition.init "provides") raw.provides).isOk = true ∧
       (parseDefs (RelationDefinition.init "peers") raw.peers).isOk = true ∧
       (parseDefs StorageDefinition.init raw.storage).isOk = true ∧
       (parseDefs ResourceDefinition.init raw.resources).isOk = true ∧
       (parseDefs PayloadDefinition.init raw.payloads).isOk = true) := by
  rw [metadata_from_raw, CharmMetadata.init]
  simp only [Option.getD_some]
  cases h1 : parseDefs (RelationDefinition.init "requires") raw.requires with
  | error e => simp [except_error_bind, except_isOk_error]
  | ok v1 =>
  rw [except_ok_bind]
  cases h2 : parseDefs (RelationDefinition.init "provides") raw.provides with
  | error e => simp [except_error_bind, except_isOk_error, except_isOk_ok]
  | ok v2 =>
  rw [except_ok_bind]
  cases h3 : parseDefs (RelationDefinition.init "peers") raw.peers with
  | error e => simp [except_error_bind, except_isOk_error, except_isOk_ok]
  | ok v3 =>
  rw [except_ok_bind]
  cases h4 : parseDefs StorageDefinition.init raw.storage with
  | error e => simp [except_error_bind, except_isOk_error, except_isOk_ok]
  | ok v4 =>
  rw [except_ok_bind]
  cases h5 : parseDefs ResourceDefinition.init raw.resources with
  | error e => simp [except_error_bind, except_isOk_error, except_isOk_ok]
  | ok v5 =>
  rw [except_ok_bind]
  cases h6 : parseDefs PayloadDefinition.init raw.payloads with
  | error e => simp [except_error_bind, except_isOk_error, except_isOk_ok]
  | ok v6 =>
  rw [except_ok_bind]
  simp [except_isOk_ok]

theorem metadata_error_inv (raw : RawMetadata) (e : MetadataError)
    (h : metadata_from_raw (some raw) = .error e) :
    (∃ p ∈ raw.requires, RelationDefinition.init "requires" p.1 p.2 = .error e) ∨
    (∃ p ∈ raw.provides, RelationDefinition.init "provides" p.1 p.2 = .error e) ∨
    (∃ p ∈ raw.peers, RelationDefinition.init "peers" p.1 p.2 = .error e) ∨
    (∃ p ∈ raw.storage, StorageDefinition.init p.1 p.2 = .error e) ∨
    (∃ p ∈ raw.resources, ResourceDefinition.init p.1 p.2 = .error e) ∨
    (∃ p ∈ raw.payloads, PayloadDefinition.init p.1 p.2 = .error e) := by
  rw [metadata_from_raw, CharmMetadata.init] at h
  simp only [Option.getD_some] at h
  cases h1 : parseDefs (RelationDefinition.init "requires") raw.requires with
  | error e₁ =>
    rw [h1, except_error_bind] at h
    cases h
    exact Or.inl (parseDefs_error _ _ _ h1)
  | ok v1 =>
  rw [h1, except_ok_bind] at h
  cases h2 : parseDefs (RelationDefinition.init "provides") raw.provides with
  | error e₁ =>
    rw [h2, except_error_bind] at h
    cases h
    exact Or.inr (Or.inl (parseDefs_error _ _ _ h2))
  | ok v2 =>
  rw [h2, except_ok_bind] at h
  cases h3 : parseDefs (RelationDefinition.init "peers") raw.peers with
  | error e₁ =>
    rw [h3, except_error_bind] at h
    cases h
    exact Or.inr (Or.inr (Or.inl (parseDefs_error _ _ _ h3)))
  | ok v3 =>
  rw [h3, except_ok_bind] at h
  cases h4 : parseDefs StorageDefinition.init raw.storage with
  | error e₁ =>
    rw [h4, except_error_bind] at h
    cases h
    exact Or.inr (Or.inr (Or.inr (Or.inl (parseDefs_error _ _ _ h4))))
  | ok v4 =>
  rw [h4, except_ok_bind] at h
  cases h5 : parseDefs ResourceDefinition.init raw.resources with
  | error e₁ =>
    rw [h5, except_error_bind] at h
    cases h
    exact Or.inr (Or.inr (Or.inr (Or.inr (Or.inl (parseDefs_error _ _ _ h5)))))
  | ok v5 =>
  rw [h5, except_ok_bind] at h
  cases h6 : parseDefs PayloadDefinition.init raw.payloads with
  | error e₁ =>
    rw [h6, except_error_bind] at h
    cases h
    exact Or.inr (Or.inr (Or.inr (Or.inr (Or.inr (parseDefs_error _ _ _ h6)))))
  | ok v6 =>
  rw [h6, except_ok_bind] at h
  cases h

/-- C5 (amended): metadata parsing fails — aborting construction with no
partial metadata value — exactly when some nested raw definition omits a
required field (`interface` for relations; `type` for storage, resources and
payloads; additionally `filename` for resources; and additionally the
`range` key when a storage definition declares `multiple`) or a storage
range token has non-numeric bounds.  A missing required field raises a
`KeyError` carrying the missing field's name — the exception does not carry
the offending definition's name, but some nested definition, identifiable
by name in the raw description, indeed omits that field — and a malformed
range token raises `ValueError` from `int()`, carrying the token.  (As
`storage_multiple_without_range_fails` shows, the missing-`range` failure
falls outside the original claim's enumeration, and the bare `KeyError`
carries only the field.) -/
theorem metadata_parse_errors (raw : RawMetadata) :
    ((metadata_from_raw (some raw)).isOk = true ↔
      ((∀ p ∈ raw.requires, rawRelationComplete p.2 = true) ∧
       (∀ p ∈ raw.provides, rawRelationComplete p.2 = true) ∧
       (∀ p ∈ raw.peers, rawRelationComplete p.2 = true) ∧
       (∀ p ∈ raw.storage, rawStorageComplete p.2 = true) ∧
       (∀ p ∈ raw.resources, rawResourceComplete p.2 = true) ∧
       (∀ p ∈ raw.payloads, rawPayloadComplete p.2 = true))) ∧
    (∀ e, metadata_from_raw (some raw) = .error e → errorWitnessed raw e) := by
  constructor
  · rw [metadata_isOk_iff]
    constructor
    · rintro ⟨a1, a2, a3, a4, a5, a6⟩
      exact ⟨fun p hp => by
          rw [← relation_init_isOk "requires" p.1 p.2]
          exact (parseDefs_isOk_iff _ _).mp a1 p hp,
        fun p hp => by
          rw [← relation_init_isOk "provides" p.1 p.2]
          exact (parseDefs_isOk_iff _ _).mp a2 p hp,
        fun p hp => by
          rw [← relation_init_isOk "peers" p.1 p.2]
          exact (parseDefs_isOk_iff _ _).mp a3 p hp,
        fun p hp => by
          rw [← storage_init_isOk p.1 p.2]
          exact (parseDefs_isOk_iff _ _).mp a4 p hp,
        fun p hp => by
          rw [← resource_init_isOk p.1 p.2]
          exact (parseDefs_isOk_iff _ _).mp a5 p hp,
        fun p hp => by
          rw [← payload_init_isOk p.1 p.2]
          exact (parseDefs_isOk_iff _ _).mp a6 p hp⟩
    · rintro ⟨a1, a2, a3, a4, a5, a6⟩
      exact ⟨(parseDefs_isOk_iff _ _).mpr (fun p hp => by
          rw [relation_init_isOk "requires" p.1 p.2]; exact a1 p hp),
        (parseDefs_isOk_iff _ _).mpr (fun p hp => by
          rw [relation_init_isOk "provides" p.1 p.2]; exact a2 p hp),
        (parseDefs_isOk_iff _ _).mpr (fun p hp => by
          rw [relation_init_isOk "peers" p.1 p.2]; exact a3 p hp),
        (parseDefs_isOk_iff _ _).mpr (fun p hp => by
          rw [storage_init_isOk p.1 p.2]; exact a4 p hp),
        (parseDefs_isOk_iff _ _).mpr (fun p hp => by
          rw [resource_init_isOk p.1 p.2]; exact a5 p hp),
        (parseDefs_isOk_iff _ _).mpr (fun p hp => by
          rw [payload_init_isOk p.1 p.2]; exact a6 p hp)⟩
  · intro e he
    rcases metadata_error_inv raw e he with hc | hc | hc | hc | hc | hc
    · obtain ⟨p, hp, hpe⟩ := hc
      obtain ⟨he', hi⟩ := relation_init_error _ _ _ _ hpe
      subst he'
      exact Or.inl ⟨rfl, p.1, p.2, Or.inl hp, hi⟩
    · obtain ⟨p, hp, hpe⟩ := hc
      obtain ⟨he', hi⟩ := relation_init_error _ _ _ _ hpe
      subst he'
      exact Or.inl ⟨rfl, p.1, p.2, Or.inr (Or.inl hp), hi⟩
    · obtain ⟨p, hp, hpe⟩ := hc
      obtain ⟨he', hi⟩ := relation_init_error _ _ _ _ hpe
      subst he'
      exact Or.inl ⟨rfl, p.1, p.2, Or.inr (Or.inr hp), hi⟩
    · obtain ⟨p, hp, hpe⟩ := hc
      rcases storage_init_error _ _ _ hpe with ⟨he', ht⟩ | ⟨he', hm⟩ | ⟨tok, he', hm, hn⟩
      · subst he'
        exact Or.inr (Or.inl ⟨rfl, Or.inl ⟨p.1, p.2, hp, ht⟩⟩)
      · subst he'
        exact Or.inr (Or.inr (Or.inr ⟨rfl, p.1, p.2, hp, hm⟩))
      · subst he'
        exact ⟨p.1, p.2, hp, hm, hn⟩
    · obtain ⟨p, hp, hpe⟩ := hc
      rcases resource_init_error _ _ _ hpe with ⟨he', ht⟩ | ⟨he', hf⟩
      · subst he'
        exact Or.inr (Or.inl ⟨rfl, Or.inr (Or.inl ⟨p.1, p.2, hp, ht⟩)⟩)
      · subst he'
        exact Or.inr (Or.inr (Or.inl ⟨rfl, p.1, p.2, hp, hf⟩))
    · obtain ⟨p, hp, hpe⟩ := hc
      obtain ⟨he', ht⟩ := payload_init_error _ _ _ hpe
      subst he'
      exact Or.inr (Or.inl ⟨rfl, Or.inr (Or.inr ⟨p.1, p.2, hp, ht⟩)⟩)

/-- A complete raw description exercising every nested definition kind. -/
def rawFull : RawMetadata :=
  { RawMetadata.empty with
    requires := [("db", { interface := some "sql", scope := none })],
    storage := [("data", { type := some "filesystem", description := none,
                           shared := none, read_only := none, minimum_size := none,
                           location := none,
                           multiple := some { range := some "1-5" } })],
    resources := [("blob", { type := some "file", filename := some "blob.bin",
                             description := none })],
    payloads := [("app", { type := some "docker" })] }

/-- A raw description whose storage definition `logs` lacks its required
`type` field. -/
def rawNoType : RawMetadata :=
  { RawMetadata.empty with
    storage := [("logs", { type := none, description := none, shared := none,
                           read_only := none, minimum_size := none,
                           location := none, multiple := none })] }

/-- Witness for `metadata_parse_errors`: the complete description parses,
and the `KeyError('type')` failure on the raw description whose `logs`
storage definition lacks `type` is accounted for by that definition. -/
theorem metadata_parse_errors_witness :
    (metadata_from_raw (some rawFull)).isOk = true ∧
    errorWitnessed rawNoType (.MissingField "type") :=
  ⟨(metadata_parse_errors rawFull).1.mpr (by decide),
   (metadata_parse_errors rawNoType).2 (.MissingField "type") (by rfl)⟩

/-- A raw description whose storage definition `logs` has its required
`type` field and declares `multiple` without a `range` key; it declares no
relations, resources or payloads, and no range token exists anywhere in it. -/
def rawNoRange : RawMetadata :=
  { RawMetadata.empty with
    storage := [("logs", { type := some "filesystem", description := none,
                           shared := none, read_only := none,
                           minimum_size := none, location := none,
                           multiple := some { range := none } })] }

/-- C5 counterexample: parsing `rawNoRange` fails with `KeyError('range')`
even though no definition omits `interface`, `type` or `filename` and no
range token exists to have non-numeric bounds — refuting the claim that
parsing fails exactly when one of those listed conditions holds. -/
theorem storage_multiple_without_range_fails :
    metadata_from_raw (some rawNoRange) = .error (.MissingField "range") ∧
    rawNoRange.requires = [] ∧ rawNoRange.provides = [] ∧
    rawNoRange.peers = [] ∧ rawNoRange.resources = [] ∧
    rawNoRange.payloads = [] ∧
    rawNoRange.storage
      = [("logs", { type := some "filesystem", description := none,
                    shared := none, read_only := none,
                    minimum_size := none, location := none,
                    multiple := some { range := none } })] :=
  ⟨rfl, rfl, rfl, rfl, rfl, rfl, rfl⟩

/-! ### String lemmas for generated keys -/

theorem string_data_append (a b : String) : (a ++ b).data = a.data ++ b.data :=
  rfl

theorem isPrefixOf_append_self (l t : List Char) : l.isPrefixOf (l ++ t) = true := by
  induction l with
  | nil => cases t <;> rfl
  | cons a rest ih => simp [List.isPrefixOf, ih]

theorem seqIn_append_left (pat l₂ : List Char) (h : seqIn pat l₂ = true) :
    ∀ l₁, seqIn pat (l₁ ++ l₂) = true := by
  intro l₁
  induction l₁ with
  | nil => exact h
  | cons a rest ih =>
    rw [List.cons_append, seqIn, ih]
    simp

theorem seqIn_append_self (pat t : List Char) : seqIn pat (pat ++ t) = true := by
  cases pat with
  | nil => cases t <;> simp [seqIn, List.isPrefixOf]
  | cons a rest =>
    rw [List.cons_append, seqIn]
    have hp := isPrefixOf_append_self (a :: rest) t
    rw [List.cons_append] at hp
    rw [hp]
    simp

theorem seqIn_singleton_false (c : Char) (l : List Char)
    (h : seqIn [c] l = false) : c ∉ l := by
  induction l with
  | nil => simp
  | cons a rest ih =>
    rw [seqIn] at h
    simp only [Bool.or_eq_false_iff] at h
    have h₁ := h.1
    simp only [List.isPrefixOf, Bool.and_eq_false_iff] at h₁
    intro hm
    rcases List.mem_cons.mp hm with he | hm'
    · subst he
      rcases h₁ with h₁ | h₁
      · simp at h₁
      · simp [List.isPrefixOf] at h₁
    · exact ih h.2 hm'

theorem splitChar_ne_nil (c : Char) (l : List Char) : splitChar c l ≠ [] := by
  cases l with
  | nil => simp [splitChar]
  | cons a rest =>
    rw [splitChar]
    by_cases ha : a = c
    · simp [ha]
    · rw [if_neg ha]
      cases hs : splitChar c rest <;> simp

theorem splitChar_append (c : Char) (l₂ h : List Char) (t : List (List Char))
    (hs : splitChar c l₂ = h :: t) :
    ∀ l₁, c ∉ l₁ → splitChar c (l₁ ++ l₂) = (l₁ ++ h) :: t := by
  intro l₁
  induction l₁ with
  | nil => intro _; simpa using hs
  | cons a rest ih =>
    intro hmem
    simp only [List.mem_cons, not_or] at hmem
    have hrest := ih hmem.2
    rw [List.cons_append, splitChar, if_neg (fun he => hmem.1 he.symm), hrest]
    rfl

/-- The generated key `n ++ "_relation_joined"` (for an underscore-free name
`n`) contains the relation infix and splits into the three expected tokens. -/
theorem relation_key_split (n : String) (hn : pyIn "_" n = false) :
    pyIn "_relation_" (n ++ "_relation_joined") = true ∧
    pySplit (n ++ "_relation_joined") '_' = [n, "relation", "joined"] := by
  constructor
  · rw [pyIn, string_data_append]
    rw [show ("_relation_joined".data
      = "_relation_".data ++ "joined".data) from rfl]
    exact seqIn_append_left _ _ (seqIn_append_self _ _) _
  · have hmem : '_' ∉ n.data := seqIn_singleton_false '_' n.data (by
      rw [pyIn] at hn
      simpa using hn)
    have hs : splitChar '_' ("_relation_joined".data)
        = [] :: ["relation".data, "joined".data] := by decide
    rw [pySplit, string_data_append,
      splitChar_append '_' _ _ _ hs n.data hmem]
    simp [List.map]

/-! ### C7: accessor recomputation is stateless and reflects the live set -/

theorem relationLoop_append (l₁ l₂ : Dict EventType) :
    ∀ groups, relationLoop groups (l₁ ++ l₂)
      = (relationLoop groups l₁) >>= fun g => relationLoop g l₂ := by
  induction l₁ with
  | nil => intro groups; rfl
  | cons p rest ih =>
    intro groups
    obtain ⟨k, v⟩ := p
    cases hk : pyIn "_relation_" k with
    | false =>
      rw [List.cons_append, relationLoop_skip _ _ _ _ hk,
        relationLoop_skip _ _ _ _ hk, ih]
    | true =>
      match hs : pySplit k '_' with
      | [a, b, c] =>
        simp only [List.cons_append, relationLoop, hk, hs, if_true]
        exact ih _
      | [] => simp [List.cons_append, relationLoop, hk, hs, except_error_bind]
      | [a] => simp [List.cons_append, relationLoop, hk, hs, except_error_bind]
      | [a, b] => simp [List.cons_append, relationLoop, hk, hs, except_error_bind]
      | a :: b :: c :: d :: t =>
        simp [List.cons_append, relationLoop, hk, hs, except_error_bind]

/-- One call of the `relation` property on a charm: the property body builds
a fresh `groups` mapping from `self.events()` and assigns no attribute of
`self`, so a call returns the computed view together with the unchanged
instance. -/
def relationCall (c : CharmBase) :
    Except AccessError (Dict (Dict EventType)) × CharmBase :=
  (c.«on».relation, c)

/-- One call of the `storage` property on a charm. -/
def storageCall (c : CharmBase) :
    Except AccessError (Dict (Dict EventType)) × CharmBase :=
  (c.«on».storage, c)

/-- C7: calling `by_relation()` or `by_storage()` twice in succession without
intervening declaration changes returns equal results; the call leaves the
instance — in particular its declaration set — unchanged; and the view is
recomputed from the live declaration set on every access, so after a
post-construction `define_event` of a fresh relation key the next
`by_relation()` result contains the new relation name's group. -/
theorem accessor_stateless (c : CharmBase) (gs : Dict (Dict EventType))
    (n : String) (ty : EventType) (ce' : CharmEvents)
    (hok : c.«on».relation = .ok gs)
    (hn : pyIn "_" n = false)
    (hdef : c.«on».define_event (n ++ "_relation_joined") ty = .ok ce') :
    (relationCall c).2 = c ∧ (storageCall c).2 = c ∧
    (relationCall ((relationCall c).2)).1 = (relationCall c).1 ∧
    (storageCall ((storageCall c).2)).1 = (storageCall c).1 ∧
    ce'.relation = .ok (dictInsert gs n
      (dictInsert ((dictGet? gs n).getD []) "joined" ty)) := by
  refine ⟨rfl, rfl, rfl, rfl, ?_⟩
  rw [CharmEvents.define_event] at hdef
  split at hdef
  · exact absurd hdef (by simp)
  · cases hdef
    obtain ⟨hin, hsplit⟩ := relation_key_split n hn
    rw [CharmEvents.relation]
    rw [show ({ events := c.«on».events ++ [(n ++ "_relation_joined", ty)] } :
      CharmEvents).events = c.«on».events ++ [(n ++ "_relation_joined", ty)] from rfl]
    rw [relationLoop_append _ _ [], show relationLoop [] c.«on».events
      = c.«on».relation from rfl, hok, except_ok_bind]
    rw [relationLoop, hin]
    simp only [if_true, hsplit]
    rfl

/-- The empty default metadata value. -/
def mdEmpty : CharmMetadata :=
  { name := "", summary := "", description := "", maintainers := [],
    tags := [], terms := [], series := [], subordinate := false,
    min_juju_version := none, requires := [], provides := [], peers := [],
    relations := [], storage := [], resources := [], payloads := [],
    extra_bindings := [] }

/-- A charm with the ten fixed declarations and empty metadata. -/
def charmSmall : CharmBase :=
  { «on» := charmEventsInit, metadata := mdEmpty }

/-- Witness for `accessor_stateless`: a `db_relation_joined` declaration
defined after construction shows up in the recomputed view. -/
theorem accessor_stateless_witness :
    (relationCall charmSmall).2 = charmSmall ∧
    (storageCall charmSmall).2 = charmSmall ∧
    (relationCall ((relationCall charmSmall).2)).1 = (relationCall charmSmall).1 ∧
    (storageCall ((storageCall charmSmall).2)).1 = (storageCall charmSmall).1 ∧
    CharmEvents.relation
      { events := charmEventsInit.events ++ [("db_relation_joined", .RelationJoinedEvent)] }
      = .ok (dictInsert [] "db"
          (dictInsert ((dictGet? [] "db").getD []) "joined" .RelationJoinedEvent)) :=
  accessor_stateless charmSmall [] "db" .RelationJoinedEvent
    { events := charmEventsInit.events ++ [("db_relation_joined", .RelationJoinedEvent)] }
    (by rfl) (by rfl) (by rfl)

/-! ### C10: generated event keys never collide -/

def relationSuffixes : List String :=
  ["_relation_joined", "_relation_changed", "_relation_departed", "_relation_broken"]

def storageSuffixes : List String :=
  ["_storage_attached", "_storage_detaching"]

def eventSuffixes : List String := relationSuffixes ++ storageSuffixes

/-- The keys of the ten fixed lifecycle declarations. -/
def fixedKeys : List String := dictKeys charmEventsInit.events

theorem string_append_left_cancel (a s t : String) (h : a ++ s = a ++ t) : s = t := by
  have hd : a.data ++ s.data = a.data ++ t.data := congrArg String.data h
  exact String.ext (List.append_cancel_left hd)

theorem string_append_right_cancel (a b s : String) (h : a ++ s = b ++ s) : a = b := by
  have hd : a.data ++ s.data = b.data ++ s.data := congrArg String.data h
  exact String.ext (List.append_cancel_right hd)

theorem append_suffix_drop {α : Type} (l₁ l₂ s t : List α)
    (h : l₁ ++ s = l₂ ++ t) (hle : s.length ≤ t.length) :
    s = t.drop (t.length - s.length) := by
  have hlen : l₁.length + s.length = l₂.length + t.length := by
    simpa using congrArg List.length h
  have he : l₁.length = l₂.length + (t.length - s.length) := by omega
  calc s = (l₁ ++ s).drop l₁.length := (List.drop_left l₁ s).symm
    _ = (l₂ ++ t).drop l₁.length := by rw [h]
    _ = (l₂ ++ t).drop (l₂.length + (t.length - s.length)) := by rw [← he]
    _ = t.drop (t.length - s.length) := List.drop_append _

theorem suffix_drop_check :
    ∀ s ∈ eventSuffixes, ∀ t ∈ eventSuffixes,
      s.data.length ≤ t.data.length →
      t.data.drop (t.data.length - s.data.length) = s.data → s = t := by decide

/-- Two generated keys are equal only when both the name and the suffix
agree. -/
theorem genKey_inj (n m s t : String)
    (hs : s ∈ eventSuffixes) (ht : t ∈ eventSuffixes)
    (h : n ++ s = m ++ t) : n = m ∧ s = t := by
  have hd : n.data ++ s.data = m.data ++ t.data := by
    simpa [string_data_append] using congrArg String.data h
  have hst : s = t := by
    rcases Nat.le_total s.data.length t.data.length with hle | hle
    · exact suffix_drop_check s hs t ht hle (append_suffix_drop _ _ _ _ hd hle).symm
    · exact (suffix_drop_check t ht s hs hle
        (append_suffix_drop _ _ _ _ hd.symm hle).symm).symm
  subst hst
  exact ⟨string_append_right_cancel _ _ _ h, rfl⟩

theorem fixedKey_check :
    ∀ k ∈ fixedKeys, ∀ s ∈ eventSuffixes,
      s.data.length ≤ k.data.length →
      k.data.drop (k.data.length - s.data.length) = s.data → False := by decide

/-- No fixed lifecycle key has the shape of a generated key. -/
theorem fixedKey_ne_genKey (k : String) (hk : k ∈ fixedKeys)
    (s : String) (hs : s ∈ eventSuffixes) (n : String) : k ≠ n ++ s := by
  intro he
  have hd : n.data ++ s.data = ([] : List Char) ++ k.data := by
    simpa [string_data_append] using congrArg String.data he.symm
  have hle : s.data.length ≤ k.data.length := by
    have hlen := congrArg List.length hd
    rw [List.length_append, List.length_append] at hlen
    simp only [List.length_nil] at hlen
    omega
  exact fixedKey_check k hk s hs hle (append_suffix_drop _ _ _ _ hd hle).symm

/-- The four relation-lifecycle keys generated for each name, in definition
order. -/
def relKeys (names : List String) : List String :=
  names.flatMap (fun n => relationSuffixes.map (fun s => n ++ s))

/-- The two storage-lifecycle keys generated for each name. -/
def stKeys (names : List String) : List String :=
  names.flatMap (fun n => storageSuffixes.map (fun s => n ++ s))

theorem mem_relKeys (k : String) (names : List String) :
    k ∈ relKeys names ↔ ∃ nm ∈ names, ∃ s ∈ relationSuffixes, k = nm ++ s := by
  simp only [relKeys, List.mem_flatMap, List.mem_map]
  constructor
  · rintro ⟨nm, hnm, s, hs, he⟩
    exact ⟨nm, hnm, s, hs, he.symm⟩
  · rintro ⟨nm, hnm, s, hs, he⟩
    exact ⟨nm, hnm, s, hs, he.symm⟩

theorem mem_stKeys (k : String) (names : List String) :
    k ∈ stKeys names ↔ ∃ nm ∈ names, ∃ s ∈ storageSuffixes, k = nm ++ s := by
  simp only [stKeys, List.mem_flatMap, List.mem_map]
  constructor
  · rintro ⟨nm, hnm, s, hs, he⟩
    exact ⟨nm, hnm, s, hs, he.symm⟩
  · rintro ⟨nm, hnm, s, hs, he⟩
    exact ⟨nm, hnm, s, hs, he.symm⟩

theorem dictKeys_append {α : Type} (a b : Dict α) :
    dictKeys (a ++ b) = dictKeys a ++ dictKeys b := by
  simp [dictKeys]

theorem define_event_ok (ce : CharmEvents) (k : String) (ty : EventType)
    (h : k ∉ dictKeys ce.events) :
    ce.define_event k ty = .ok { events := ce.events ++ [(k, ty)] } := by
  rw [CharmEvents.define_event, if_neg h]

theorem defineRelationEvents_ok (ce : CharmEvents) (nm : String)
    (hfresh : ∀ s ∈ relationSuffixes, (nm ++ s) ∉ dictKeys ce.events) :
    defineRelationEvents ce nm = .ok { events := ce.events ++
      [(nm ++ "_relation_joined", .RelationJoinedEvent),
       (nm ++ "_relation_changed", .RelationChangedEvent),
       (nm ++ "_relation_departed", .RelationDepartedEvent),
       (nm ++ "_relation_broken", .RelationBrokenEvent)] } := by
  have hf : ∀ s ∈ relationSuffixes, ∀ block : Dict EventType,
      (∀ p ∈ block, ∃ t ∈ relationSuffixes, t ≠ s ∧ p.1 = nm ++ t) →
      (nm ++ s) ∉ dictKeys (ce.events ++ block) := by
    intro s hs block hblock hm
    rw [dictKeys_append] at hm
    rcases List.mem_append.mp hm with hm | hm
    · exact hfresh s hs hm
    · obtain ⟨p, hp, hpe⟩ := List.mem_map.mp hm
      obtain ⟨t, ht, hts, hp1⟩ := hblock p hp
      rw [hp1] at hpe
      exact hts (genKey_inj nm nm t s
        (by simp [eventSuffixes]; left; exact ht)
        (by simp [eventSuffixes]; left; exact hs) hpe).2
  rw [defineRelationEvents]
  rw [define_event_ok _ _ _ (hfresh _ (by simp [relationSuffixes])), except_ok_bind]
  rw [define_event_ok _ _ _ (hf "_relation_changed" (by simp [relationSuffixes]) _
    (by intro p hp
        simp only [List.mem_singleton] at hp
        subst hp
        exact ⟨"_relation_joined", by simp [relationSuffixes], by simp, rfl⟩)),
    except_ok_bind]
  rw [show (({ events := ce.events ++ [(nm ++ "_relation_joined", .RelationJoinedEvent)] } :
      CharmEvents).events ++ [(nm ++ "_relation_changed", .RelationChangedEvent)])
      = ce.events ++ [(nm ++ "_relation_joined", .RelationJoinedEvent),
                      (nm ++ "_relation_changed", .RelationChangedEvent)] from by
    simp]
  rw [define_event_ok _ _ _ (hf "_relation_departed" (by simp [relationSuffixes]) _
    (by intro p hp
        simp only [List.mem_cons, List.not_mem_nil, or_false] at hp
        rcases hp with rfl | rfl
        · exact ⟨"_relation_joined", by simp [relationSuffixes], by simp, rfl⟩
        · exact ⟨"_relation_changed", by simp [relationSuffixes], by simp, rfl⟩)),
    except_ok_bind]
  rw [show (({ events := ce.events ++
        [(nm ++ "_relation_joined", .RelationJoinedEvent),
         (nm ++ "_relation_changed", .RelationChangedEvent)] } :
      CharmEvents).events ++ [(nm ++ "_relation_departed", .RelationDepartedEvent)])
      = ce.events ++ [(nm ++ "_relation_joined", .RelationJoinedEvent),
                      (nm ++ "_relation_changed", .RelationChangedEvent),
                      (nm ++ "_relation_departed", .RelationDepartedEvent)] from by
    simp]
  rw [define_event_ok _ _ _ (hf "_relation_broken" (by simp [relationSuffixes]) _
    (by intro p hp
        simp only [List.mem_cons, List.not_mem_nil, or_false] at hp
        rcases hp with rfl | rfl | rfl
        · exact ⟨"_relation_joined", by simp [relationSuffixes], by simp, rfl⟩
        · exact ⟨"_relation_changed", by simp [relationSuffixes], by simp, rfl⟩
        · exact ⟨"_relation_departed", by simp [relationSuffixes], by simp, rfl⟩))]
  congr 1
  simp

theorem defineStorageEvents_ok (ce : CharmEvents) (nm : String)
    (hfresh : ∀ s ∈ storageSuffixes, (nm ++ s) ∉ dictKeys ce.events) :
    defineStorageEvents ce nm = .ok { events := ce.events ++
      [(nm ++ "_storage_attached", .StorageAttachedEvent),
       (nm ++ "_storage_detaching", .StorageDetachingEvent)] } := by
  rw [defineStorageEvents]
  rw [define_event_ok _ _ _ (hfresh _ (by simp [storageSuffixes])), except_ok_bind]
  rw [define_event_ok _ _ _ (by
    intro hm
    rw [show ({ events := ce.events ++ [(nm ++ "_storage_attached", .StorageAttachedEvent)] } :
        CharmEvents).events
      = ce.events ++ [(nm ++ "_storage_attached", .StorageAttachedEvent)] from rfl,
      dictKeys_append] at hm
    rcases List.mem_append.mp hm with hm | hm
    · exact hfresh _ (by simp [storageSuffixes]) hm
    · simp only [dictKeys, List.map_cons, List.map_nil, List.mem_singleton] at hm
      have := (genKey_inj nm nm _ _
        (by simp [eventSuffixes, storageSuffixes])
        (by simp [eventSuffixes, storageSuffixes]) hm).2
      exact absurd this (by decide))]
  congr 1
  simp

theorem relSuffix_mem_event {s : String} (h : s ∈ relationSuffixes) :
    s ∈ eventSuffixes :=
  List.mem_append.mpr (Or.inl h)

theorem stSuffix_mem_event {s : String} (h : s ∈ storageSuffixes) :
    s ∈ eventSuffixes :=
  List.mem_append.mpr (Or.inr h)

theorem rel_st_disjoint : ∀ s ∈ relationSuffixes, s ∉ storageSuffixes := by decide

theorem defineRelationEventsAll_ok (names : List String) :
    ∀ ce : CharmEvents, names.Nodup →
    (∀ nm ∈ names, ∀ s ∈ relationSuffixes, (nm ++ s) ∉ dictKeys ce.events) →
    ∃ ce', defineRelationEventsAll ce names = .ok ce' ∧
      dictKeys ce'.events = dictKeys ce.events ++ relKeys names := by
  induction names with
  | nil =>
    intro ce _ _
    exact ⟨ce, rfl, by simp [relKeys]⟩
  | cons nm rest ih =>
    intro ce hnd hfresh
    have h1 := defineRelationEvents_ok ce nm (fun s hs => hfresh nm (by simp) s hs)
    have hfresh' : ∀ nm' ∈ rest, ∀ s ∈ relationSuffixes,
        (nm' ++ s) ∉ dictKeys (ce.events ++
          [(nm ++ "_relation_joined", .RelationJoinedEvent),
           (nm ++ "_relation_changed", .RelationChangedEvent),
           (nm ++ "_relation_departed", .RelationDepartedEvent),
           (nm ++ "_relation_broken", .RelationBrokenEvent)]) := by
      intro nm' hnm' s hs hm
      rw [dictKeys_append] at hm
      have hne : nm' ≠ nm := fun he => (List.nodup_cons.mp hnd).1 (he ▸ hnm')
      rcases List.mem_append.mp hm with hm | hm
      · exact hfresh nm' (by simp [hnm']) s hs hm
      · simp only [dictKeys, List.map_cons, List.map_nil, List.mem_cons,
          List.not_mem_nil, or_false] at hm
        rcases hm with he | he | he | he <;>
          exact hne (genKey_inj _ _ _ _ (relSuffix_mem_event hs)
            (relSuffix_mem_event (by simp [relationSuffixes])) he).1
    obtain ⟨ce', hce', hkeys⟩ := ih
      { events := ce.events ++
          [(nm ++ "_relation_joined", .RelationJoinedEvent),
           (nm ++ "_relation_changed", .RelationChangedEvent),
           (nm ++ "_relation_departed", .RelationDepartedEvent),
           (nm ++ "_relation_broken", .RelationBrokenEvent)] }
      (List.nodup_cons.mp hnd).2 hfresh'
    refine ⟨ce', ?_, ?_⟩
    · rw [defineRelationEventsAll, h1, except_ok_bind, hce']
    · rw [hkeys]
      rw [show ({ events := ce.events ++
          [(nm ++ "_relation_joined", .RelationJoinedEvent),
           (nm ++ "_relation_changed", .RelationChangedEvent),
           (nm ++ "_relation_departed", .RelationDepartedEvent),
           (nm ++ "_relation_broken", .RelationBrokenEvent)] } :
          CharmEvents).events = ce.events ++
          [(nm ++ "_relation_joined", .RelationJoinedEvent),
           (nm ++ "_relation_changed", .RelationChangedEvent),
           (nm ++ "_relation_departed", .RelationDepartedEvent),
           (nm ++ "_relation_broken", .RelationBrokenEvent)] from rfl]
      rw [dictKeys_append]
      simp [relKeys, dictKeys, relationSuffixes]

theorem defineStorageEventsAll_ok (names : List String) :
    ∀ ce : CharmEvents, names.Nodup →
    (∀ nm ∈ names, ∀ s ∈ storageSuffixes, (nm ++ s) ∉ dictKeys ce.events) →
    ∃ ce', defineStorageEventsAll ce names = .ok ce' ∧
      dictKeys ce'.events = dictKeys ce.events ++ stKeys names := by
  induction names with
  | nil =>
    intro ce _ _
    exact ⟨ce, rfl, by simp [stKeys]⟩
  | cons nm rest ih =>
    intro ce hnd hfresh
    have h1 := defineStorageEvents_ok ce nm (fun s hs => hfresh nm (by simp) s hs)
    have hfresh' : ∀ nm' ∈ rest, ∀ s ∈ storageSuffixes,
        (nm' ++ s) ∉ dictKeys (ce.events ++
          [(nm ++ "_storage_attached", .StorageAttachedEvent),
           (nm ++ "_storage_detaching", .StorageDetachingEvent)]) := by
      intro nm' hnm' s hs hm
      rw [dictKeys_append] at hm
      have hne : nm' ≠ nm := fun he => (List.nodup_cons.mp hnd).1 (he ▸ hnm')
      rcases List.mem_append.mp hm with hm | hm
      · exact hfresh nm' (by simp [hnm']) s hs hm
      · simp only [dictKeys, List.map_cons, List.map_nil, List.mem_cons,
          List.not_mem_nil, or_false] at hm
        rcases hm with he | he <;>
          exact hne (genKey_inj _ _ _ _ (stSuffix_mem_event hs)
            (stSuffix_mem_event (by simp [storageSuffixes])) he).1
    obtain ⟨ce', hce', hkeys⟩ := ih
      { events := ce.events ++
          [(nm ++ "_storage_attached", .StorageAttachedEvent),
           (nm ++ "_storage_detaching", .StorageDetachingEvent)] }
      (List.nodup_cons.mp hnd).2 hfresh'
    refine ⟨ce', ?_, ?_⟩
    · rw [defineStorageEventsAll, h1, except_ok_bind, hce']
    · rw [hkeys]
      rw [show ({ events := ce.events ++
          [(nm ++ "_storage_attached", .StorageAttachedEvent),
           (nm ++ "_storage_detaching", .StorageDetachingEvent)] } :
          CharmEvents).events = ce.events ++
          [(nm ++ "_storage_attached", .StorageAttachedEvent),
           (nm ++ "_storage_detaching", .StorageDetachingEvent)] from rfl]
      rw [dictKeys_append]
      simp [stKeys, dictKeys, storageSuffixes]

/-- Taxonomy construction succeeds for any metadata whose relation and
storage key sets are duplicate-free, and the resulting declaration keys are
the ten fixed keys followed by the generated relation and storage keys. -/
theorem charmBase_init_ok (md : CharmMetadata)
    (hrel : (dictKeys md.relations).Nodup) (hsto : (dictKeys md.storage).Nodup) :
    ∃ c, CharmBase.init md = .ok c ∧
      dictKeys c.«on».events
        = fixedKeys ++ relKeys (dictKeys md.relations)
            ++ stKeys (dictKeys md.storage) := by
  obtain ⟨ce₁, h₁, hk₁⟩ := defineRelationEventsAll_ok (dictKeys md.relations)
    charmEventsInit hrel
    (fun nm _ s hs hm => (fixedKey_ne_genKey _ hm s (relSuffix_mem_event hs) nm) rfl)
  obtain ⟨ce₂, h₂, hk₂⟩ := defineStorageEventsAll_ok (dictKeys md.storage) ce₁ hsto
    (by
      intro nm _ s hs hm
      rw [hk₁] at hm
      rcases List.mem_append.mp hm with hm | hm
      · exact (fixedKey_ne_genKey _ hm s (stSuffix_mem_event hs) nm) rfl
      · obtain ⟨nm', _, t, ht, he⟩ := (mem_relKeys _ _).mp hm
        have hst := (genKey_inj nm nm' s t (stSuffix_mem_event hs)
          (relSuffix_mem_event ht) he).2
        exact rel_st_disjoint t ht (hst ▸ hs))
  refine ⟨{ «on» := ce₂, metadata := md }, ?_, ?_⟩
  · simp only [CharmBase.init]
    rw [h₁, except_ok_bind, h₂, except_ok_bind]
  · rw [show ({ «on» := ce₂, metadata := md } : CharmBase).«on» = ce₂ from rfl,
      hk₂, hk₁]
    rfl

theorem count_fixedKeys_genKey (nm s : String) (hs : s ∈ eventSuffixes) :
    fixedKeys.count (nm ++ s) = 0 :=
  List.count_eq_zero_of_not_mem (fun hm => (fixedKey_ne_genKey _ hm s hs nm) rfl)

theorem count_relKeys (names : List String) (hnd : names.Nodup)
    (nm : String) (hm : nm ∈ names) (s : String) (hs : s ∈ relationSuffixes) :
    (relKeys names).count (nm ++ s) = 1 := by
  induction names with
  | nil => cases hm
  | cons m rest ih =>
    rw [show relKeys (m :: rest)
      = relationSuffixes.map (fun t => m ++ t) ++ relKeys rest from by
        simp [relKeys]]
    rw [List.count_append]
    rcases List.mem_cons.mp hm with rfl | hm'
    · have hz : (relKeys rest).count (nm ++ s) = 0 := by
        apply List.count_eq_zero_of_not_mem
        intro hmem
        obtain ⟨nm', hnm', s', hs', he'⟩ := (mem_relKeys _ _).mp hmem
        have := (genKey_inj nm nm' s s' (relSuffix_mem_event hs)
          (relSuffix_mem_event hs') he').1
        exact (List.nodup_cons.mp hnd).1 (this ▸ hnm')
      have hinj : Function.Injective (fun t => nm ++ t) :=
        fun a b h => string_append_left_cancel nm a b h
      have hcm := List.count_map_of_injective relationSuffixes
        (fun t => nm ++ t) hinj s
      rw [hz, hcm, List.count_eq_one_of_mem (by decide) hs]
    · have hz : (relationSuffixes.map (fun t => m ++ t)).count (nm ++ s) = 0 := by
        apply List.count_eq_zero_of_not_mem
        intro hmem
        obtain ⟨t, ht, he'⟩ := List.mem_map.mp hmem
        have hne : nm ≠ m := fun he2 => (List.nodup_cons.mp hnd).1 (he2 ▸ hm')
        exact hne (genKey_inj nm m s t (relSuffix_mem_event hs)
          (relSuffix_mem_event ht) he'.symm).1
      rw [hz, ih (List.nodup_cons.mp hnd).2 hm']

theorem count_stKeys_relSuffix (names : List String) (nm s : String)
    (hs : s ∈ relationSuffixes) : (stKeys names).count (nm ++ s) = 0 := by
  apply List.count_eq_zero_of_not_mem
  intro hmem
  obtain ⟨nm', _, t, ht, he⟩ := (mem_stKeys _ _).mp hmem
  have hst := (genKey_inj nm nm' s t (relSuffix_mem_event hs)
    (stSuffix_mem_event ht) he).2
  exact rel_st_disjoint s hs (hst ▸ ht)

/-- C10: for every raw description in which the same relation name appears
under more than one of requires/provides/peers, instance construction never
raises `DuplicateDeclaration` on account of that collision: the combined
`relations` mapping already holds each colliding name exactly once, so the
taxonomy loop registers exactly one set of four relation-lifecycle
declarations for that name and construction succeeds.  (The raw storage
mapping, being a Python dict, has unique keys.) -/
theorem cross_role_collision_construction_ok (raw : RawMetadata)
    (md : CharmMetadata) (n : String)
    (hok : metadata_from_raw (some raw) = .ok md)
    (hsto : NoDupKeys raw.storage)
    (hcol : (n ∈ dictKeys raw.requires ∧ n ∈ dictKeys raw.provides) ∨
            (n ∈ dictKeys raw.requires ∧ n ∈ dictKeys raw.peers) ∨
            (n ∈ dictKeys raw.provides ∧ n ∈ dictKeys raw.peers)) :
    (CharmBase.init md).isOk = true ∧
    ∀ c, CharmBase.init md = .ok c →
      ((dictKeys c.«on».events).count (n ++ "_relation_joined") = 1 ∧
       (dictKeys c.«on».events).count (n ++ "_relation_changed") = 1 ∧
       (dictKeys c.«on».events).count (n ++ "_relation_departed") = 1 ∧
       (dictKeys c.«on».events).count (n ++ "_relation_broken") = 1) := by
  obtain ⟨h1, h2, h3, h4, h5, -⟩ := metadata_from_raw_ok_inv raw md hok
  have hrel : (dictKeys md.relations).Nodup := NoDupKeys_relations md h4
  have hstol : (dictKeys md.storage).Nodup := by
    rw [parseDefs_keys _ _ _ h5]; exact hsto
  have hmem : n ∈ dictKeys md.relations := by
    rw [h4, mem_dictKeys_dictUpdate, mem_dictKeys_dictUpdate,
      mem_dictKeys_dictUpdate]
    simp only [dictKeys, List.map_nil, List.not_mem_nil, false_or]
    rw [show List.map Prod.fst md.requires = dictKeys md.requires from rfl,
      show List.map Prod.fst md.provides = dictKeys md.provides from rfl,
      show List.map Prod.fst md.peers = dictKeys md.peers from rfl,
      parseDefs_keys _ _ _ h1, parseDefs_keys _ _ _ h2, parseDefs_keys _ _ _ h3]
    tauto
  obtain ⟨c₀, hc₀, hkeys⟩ := charmBase_init_ok md hrel hstol
  constructor
  · rw [hc₀]; rfl
  · intro c hc
    have hcc : c = c₀ := by
      rw [hc₀] at hc
      exact (Except.ok.inj hc.symm)
    subst hcc
    have base : ∀ s ∈ relationSuffixes,
        (dictKeys c.«on».events).count (n ++ s) = 1 := by
      intro s hs
      rw [hkeys, List.count_append, List.count_append,
        count_fixedKeys_genKey n s (relSuffix_mem_event hs),
        count_relKeys _ hrel n hmem s hs,
        count_stKeys_relSuffix _ n s hs]
    exact ⟨base _ (by simp [relationSuffixes]), base _ (by simp [relationSuffixes]),
      base _ (by simp [relationSuffixes]), base _ (by simp [relationSuffixes])⟩

/-- Witness for `cross_role_collision_construction_ok`: the `db` relation
declared under both `requires` and `provides` still constructs. -/
theorem cross_role_collision_witness :
    (CharmBase.init mdDbCollide).isOk = true :=
  (cross_role_collision_construction_ok rawDbCollide mdDbCollide "db" (by rfl)
    (by decide) (Or.inl ⟨by decide, by decide⟩)).1

end Charm
